import Mathlib

/-!
# Verification of the `obs` error-tracking SDK (`sdk/go/obs.go`)

A shallow embedding of the Go package `obs` and proofs of its specified
properties.

Conventions of the embedding.

* A Go `string` is a byte sequence.  It is represented as a `List Char`, one
  character per byte; ASCII text is represented by itself.
* An `int64` is an `Int`; where the 64-bit range matters it is a hypothesis.
  A `byte` is a `Nat` below 256.
* What the Go runtime supplies (the clock, the call stack, the host name, the
  JSON encoder, the HTTP round trip) is an explicit argument of the function
  that consumes it.
* A channel is its buffer together with its capacity; a channel that is only
  ever closed is the flag "closed".  A panic is an error result.
* The goroutine `worker` is a step function; the interleaving with the caller
  is the list of steps it is given.
* The function `Recover`, which no property below concerns, is not embedded.
-/

namespace Obs

/-- A Go string: a sequence of bytes, one character each. -/
abbrev GoString := List Char

/-! ## `generateEventID` -/

/-- The conversion `byte(x)` of an `int64`: the low eight bits. -/
def byte (x : Int) : Nat := (x % 256).toNat

/-- The shift `x >> k` of an `int64`: an arithmetic shift, rounding down. -/
def sar (x : Int) (k : Nat) : Int := Int.shiftRight x k

/-- One lower-case hexadecimal digit, as the verb `%x` prints it. -/
def hexDigit (n : Nat) : Char :=
  match n with
  | 0 => '0' | 1 => '1' | 2 => '2' | 3 => '3'
  | 4 => '4' | 5 => '5' | 6 => '6' | 7 => '7'
  | 8 => '8' | 9 => '9' | 10 => 'a' | 11 => 'b'
  | 12 => 'c' | 13 => 'd' | 14 => 'e' | _ => 'f'

/-- The verb `%x` applied to a byte slice: two digits per byte. -/
def hexBytes (bs : List Nat) : GoString :=
  bs.flatMap fun b => [hexDigit (b / 16), hexDigit (b % 16)]

/-- The slice expression `b[lo:hi]`. -/
def slice {α : Type} (b : List α) (lo hi : Nat) : List α := (b.take hi).drop lo

/-- The builtin `copy(dst[off:], src)`: it copies as many elements as fit. -/
def copyAt (dst : List Nat) (off : Nat) (src : List Nat) : List Nat :=
  let n := min (dst.length - off) src.length
  dst.take off ++ src.take n ++ dst.drop (off + n)

/-- The 16-byte buffer `b` of `generateEventID` at the moment it is formatted.
`clock k` is the value of the `k`-th call of `time.Now().UnixNano()` made by
the function: call 0 fills `now`, calls 1 to 8 fill `buf[0]` to `buf[7]`. -/
def eventIDBytes (clock : Nat → Int) : List Nat :=
  let b : List Nat := List.replicate 16 0
  let now := clock 0
  let b := b.set 0 (byte (sar now 56))
  let b := b.set 1 (byte (sar now 48))
  let b := b.set 2 (byte (sar now 40))
  let b := b.set 3 (byte (sar now 32))
  let b := b.set 4 (byte (sar now 24))
  let b := b.set 5 (byte (sar now 16))
  let buf : List Nat := (List.range 8).map fun i => byte (sar (clock (i + 1)) (i * 8))
  let b := copyAt b 6 buf
  let b := b.set 6 ((b.getD 6 0 &&& 0x0f) ||| 0x40)
  let b := b.set 8 ((b.getD 8 0 &&& 0x3f) ||| 0x80)
  b

/-- The call `fmt.Sprintf("%x-%x-%x-%x-%x", b[0:4], b[4:6], b[6:8], b[8:10], b[10:16])`. -/
def formatUUID (b : List Nat) : GoString :=
  hexBytes (slice b 0 4) ++ '-' :: hexBytes (slice b 4 6) ++ '-' :: hexBytes (slice b 6 8)
    ++ '-' :: hexBytes (slice b 8 10) ++ '-' :: hexBytes (slice b 10 16)

/-- The function `generateEventID`, given the clock readings it makes. -/
def generateEventID (clock : Nat → Int) : GoString :=
  formatUUID (eventIDBytes clock)

/-- The function `generateEventID` when every clock reading of the call is `t`. -/
def generateEventIDAt (t : Int) : GoString := generateEventID fun _ => t

/-- A lower-case hexadecimal digit. -/
def isLowerHex (c : Char) : Bool :=
  ('0' ≤ c && c ≤ '9') || ('a' ≤ c && c ≤ 'f')

/-! ## `net/url`: the part of `url.Parse` that `parseDSN` and `http.NewRequest` run

The functions below follow the Go standard library (package `net/url`, as
in the releases up to Go 1.25.1; later releases reject more bracketed hosts
and hosts with several colons), function by function.  The fields `RawPath` and `RawFragment` of `URL`, which
are encoding hints that this program never reads, are left out, and the
wrapper `*url.Error` around a parse error is dropped. -/

/-- The errors of package `net/url` that `Parse` can return. -/
inductive UrlError where
  | invalidControlCharacter
  | missingProtocolScheme
  | firstPathSegmentColon
  | invalidUserinfo
  | missingBracket
  | invalidPort (colonPort : GoString)
  | escapeError (s : GoString)
  | invalidHostError (s : GoString)
deriving DecidableEq

/-- The type `encoding` of package `net/url`. -/
inductive Encoding where
  | encodePath
  | encodePathSegment
  | encodeHost
  | encodeZone
  | encodeUserPassword
  | encodeQueryComponent
  | encodeFragment
deriving DecidableEq

/-- The type `url.Userinfo`. -/
structure Userinfo where
  username : GoString
  password : GoString
  passwordSet : Bool
deriving DecidableEq

/-- The type `url.URL`; `User = none` is the nil pointer. -/
structure URL where
  Scheme : GoString := []
  Opaque : GoString := []
  User : Option Userinfo := none
  Host : GoString := []
  Path : GoString := []
  OmitHost : Bool := false
  ForceQuery : Bool := false
  RawQuery : GoString := []
  Fragment : GoString := []
deriving DecidableEq

/-- The function `strings.IndexByte`: `none` stands for -1. -/
def indexByte (c : Char) : GoString → Option Nat
  | [] => none
  | x :: xs => if x = c then some 0 else (indexByte c xs).map (· + 1)

/-- The function `strings.LastIndex` for a one-byte separator. -/
def lastIndexByte (c : Char) : GoString → Option Nat
  | [] => none
  | x :: xs =>
    match lastIndexByte c xs with
    | some i => some (i + 1)
    | none => if x = c then some 0 else none

/-- The function `strings.Index`. -/
def index (sep : GoString) : GoString → Option Nat
  | [] => if sep = [] then some 0 else none
  | x :: xs => if sep.isPrefixOf (x :: xs) then some 0 else (index sep xs).map (· + 1)

/-- The function `strings.Cut` for a one-byte separator. -/
def cut (s : GoString) (sep : Char) : GoString × GoString × Bool :=
  match indexByte sep s with
  | some i => (s.take i, s.drop (i + 1), true)
  | none => (s, [], false)

/-- The function `strings.HasSuffix` for a one-byte suffix. -/
def hasSuffixByte (s : GoString) (c : Char) : Bool := s.getLast? = some c

/-- The function `strings.ToLower` on ASCII text, one byte at a time. -/
def toLower (s : GoString) : GoString := s.map Char.toLower

/-- The function `stringContainsCTLByte`. -/
def stringContainsCTLByte (s : GoString) : Bool :=
  s.any fun b => b.toNat < ' '.toNat || b.toNat = 0x7f

/-- The function `ishex`. -/
def ishex (c : Char) : Bool :=
  ('0' ≤ c && c ≤ '9') || ('a' ≤ c && c ≤ 'f') || ('A' ≤ c && c ≤ 'F')

/-- The function `unhex`. -/
def unhex (c : Char) : Nat :=
  if '0' ≤ c ∧ c ≤ '9' then c.toNat - '0'.toNat
  else if 'a' ≤ c ∧ c ≤ 'f' then c.toNat - 'a'.toNat + 10
  else if 'A' ≤ c ∧ c ≤ 'F' then c.toNat - 'A'.toNat + 10
  else 0

/-- The function `shouldEscape`. -/
def shouldEscape (c : Char) (mode : Encoding) : Bool :=
  if ('a' ≤ c ∧ c ≤ 'z') ∨ ('A' ≤ c ∧ c ≤ 'Z') ∨ ('0' ≤ c ∧ c ≤ '9') then false
  else if (mode = .encodeHost ∨ mode = .encodeZone) ∧
      c ∈ ['!', '$', '&', '\'', '(', ')', '*', '+', ',', ';', '=', ':', '[', ']', '<', '>', '"']
    then false
  else if c ∈ ['-', '_', '.', '~'] then false
  else if c ∈ ['$', '&', '+', ',', '/', ':', ';', '=', '?', '@'] ∧
      mode ∈ [.encodePath, .encodePathSegment, .encodeUserPassword, .encodeQueryComponent,
        .encodeFragment] then
    match mode with
    | .encodePath => c = '?'
    | .encodePathSegment => c = '/' || c = ';' || c = ',' || c = '?'
    | .encodeUserPassword => c = '@' || c = '/' || c = '?' || c = ':'
    | .encodeQueryComponent => true
    | _ => false
  else if mode = .encodeFragment ∧ c ∈ ['!', '(', ')', '*'] then false
  else true

/-- The first loop of `unescape`: the error it returns, if any. -/
def unescapeCheck (mode : Encoding) : GoString → Option UrlError
  | [] => none
  | c :: rest =>
    if c = '%' then
      match rest with
      | h1 :: h2 :: rest2 =>
        if !ishex h1 || !ishex h2 then some (.escapeError [c, h1, h2])
        else if mode = .encodeHost ∧ unhex h1 < 8 ∧ [c, h1, h2] ≠ ['%', '2', '5'] then
          some (.escapeError [c, h1, h2])
        else if mode = .encodeZone ∧ [c, h1, h2] ≠ ['%', '2', '5'] ∧
            unhex h1 * 16 + unhex h2 ≠ ' '.toNat ∧
            shouldEscape (Char.ofNat (unhex h1 * 16 + unhex h2)) .encodeHost then
          some (.escapeError [c, h1, h2])
        else unescapeCheck mode rest2
      | _ => some (.escapeError (c :: rest))
    else if c = '+' then unescapeCheck mode rest
    else if (mode = .encodeHost ∨ mode = .encodeZone) ∧ c.toNat < 0x80 ∧
        shouldEscape c .encodeHost then
      some (.invalidHostError [c])
    else unescapeCheck mode rest

/-- The second loop of `unescape`: the decoded bytes. -/
def unescapeBytes (mode : Encoding) : GoString → GoString
  | [] => []
  | c :: rest =>
    if c = '%' then
      match rest with
      | h1 :: h2 :: rest2 => Char.ofNat (unhex h1 * 16 + unhex h2) :: unescapeBytes mode rest2
      | _ => c :: rest
    else if c = '+' then
      (if mode = .encodeQueryComponent then ' ' else '+') :: unescapeBytes mode rest
    else c :: unescapeBytes mode rest

/-- The function `unescape`. -/
def unescape (s : GoString) (mode : Encoding) : Except UrlError GoString :=
  match unescapeCheck mode s with
  | some e => .error e
  | none =>
    let n := s.count '%'
    let hasPlus := decide (mode = .encodeQueryComponent) && s.contains '+'
    if n = 0 ∧ hasPlus = false then .ok s else .ok (unescapeBytes mode s)

/-- The loop of `getScheme` from index `i` on, `rest` being `rawURL[i:]`. -/
def getSchemeFrom (rawURL : GoString) : Nat → GoString → Except UrlError (GoString × GoString)
  | _, [] => .ok ([], rawURL)
  | i, c :: rest =>
    if ('a' ≤ c ∧ c ≤ 'z') ∨ ('A' ≤ c ∧ c ≤ 'Z') then getSchemeFrom rawURL (i + 1) rest
    else if ('0' ≤ c ∧ c ≤ '9') ∨ c = '+' ∨ c = '-' ∨ c = '.' then
      if i = 0 then .ok ([], rawURL) else getSchemeFrom rawURL (i + 1) rest
    else if c = ':' then
      if i = 0 then .error .missingProtocolScheme
      else .ok (rawURL.take i, rawURL.drop (i + 1))
    else .ok ([], rawURL)

/-- The function `getScheme`. -/
def getScheme (rawURL : GoString) : Except UrlError (GoString × GoString) :=
  getSchemeFrom rawURL 0 rawURL

/-- The function `validOptionalPort`. -/
def validOptionalPort (port : GoString) : Bool :=
  match port with
  | [] => true
  | c :: digits => c = ':' && digits.all fun b => '0' ≤ b && b ≤ '9'

/-- The function `validUserinfo`. -/
def validUserinfo (s : GoString) : Bool :=
  s.all fun r =>
    ('A' ≤ r && r ≤ 'Z') || ('a' ≤ r && r ≤ 'z') || ('0' ≤ r && r ≤ '9') ||
    r ∈ ['-', '.', '_', ':', '~', '!', '$', '&', '\'', '(', ')', '*', '+', ',', ';', '=', '%', '@']

/-- The function `parseHost`. -/
def parseHost (host : GoString) : Except UrlError GoString :=
  if ['['].isPrefixOf host then
    match lastIndexByte ']' host with
    | none => .error .missingBracket
    | some i =>
      let colonPort := host.drop (i + 1)
      if !validOptionalPort colonPort then .error (.invalidPort colonPort)
      else
        match index ['%', '2', '5'] (host.take i) with
        | some zone => do
          let host1 ← unescape (host.take zone) .encodeHost
          let host2 ← unescape (slice host zone i) .encodeZone
          let host3 ← unescape (host.drop i) .encodeHost
          pure (host1 ++ host2 ++ host3)
        | none => unescape host .encodeHost
  else
    match lastIndexByte ':' host with
    | some i =>
      let colonPort := host.drop i
      if !validOptionalPort colonPort then .error (.invalidPort colonPort)
      else unescape host .encodeHost
    | none => unescape host .encodeHost

/-- The function `parseAuthority`. -/
def parseAuthority (authority : GoString) : Except UrlError (Option Userinfo × GoString) :=
  match lastIndexByte '@' authority with
  | none => do
    let host ← parseHost authority
    pure (none, host)
  | some i => do
    let host ← parseHost (authority.drop (i + 1))
    let userinfo := authority.take i
    if !validUserinfo userinfo then .error .invalidUserinfo
    else if !userinfo.contains ':' then do
      let userinfo ← unescape userinfo .encodeUserPassword
      pure (some ⟨userinfo, [], false⟩, host)
    else do
      let (username, password, _) := cut userinfo ':'
      let username ← unescape username .encodeUserPassword
      let password ← unescape password .encodeUserPassword
      pure (some ⟨username, password, true⟩, host)

/-- The method `(*URL).setPath`, without the hint `RawPath`. -/
def URL.setPath (u : URL) (p : GoString) : Except UrlError URL := do
  let path ← unescape p .encodePath
  pure { u with Path := path }

/-- The method `(*URL).setFragment`, without the hint `RawFragment`. -/
def URL.setFragment (u : URL) (f : GoString) : Except UrlError URL := do
  let frag ← unescape f .encodeFragment
  pure { u with Fragment := frag }

/-- The function `parse` with `viaRequest = false`, as `Parse` calls it. -/
def parse (rawURL : GoString) : Except UrlError URL :=
  if stringContainsCTLByte rawURL then .error .invalidControlCharacter
  else if rawURL = ['*'] then .ok { Path := ['*'] }
  else do
    let (scheme, rest) ← getScheme rawURL
    let url : URL := { Scheme := toLower scheme }
    let (url, rest) :=
      if hasSuffixByte rest '?' ∧ rest.count '?' = 1 then
        ({ url with ForceQuery := true }, rest.take (rest.length - 1))
      else
        let (rest, rawQuery, _) := cut rest '?'
        ({ url with RawQuery := rawQuery }, rest)
    if ¬ ['/'].isPrefixOf rest ∧ url.Scheme ≠ [] then
      .ok { url with Opaque := rest }
    else if ¬ ['/'].isPrefixOf rest ∧ (cut rest '/').1.contains ':' then
      .error .firstPathSegmentColon
    else if (url.Scheme ≠ [] ∨ ¬ ['/', '/', '/'].isPrefixOf rest) ∧ ['/', '/'].isPrefixOf rest then
      let authority := rest.drop 2
      let (authority, rest) :=
        match indexByte '/' authority with
        | some i => (authority.take i, authority.drop i)
        | none => (authority, [])
      do
        let (user, host) ← parseAuthority authority
        URL.setPath { url with User := user, Host := host } rest
    else if url.Scheme ≠ [] ∧ ['/'].isPrefixOf rest then
      URL.setPath { url with OmitHost := true } rest
    else URL.setPath url rest

/-- The function `url.Parse`. -/
def Parse (rawURL : GoString) : Except UrlError URL :=
  let (u, frag, _) := cut rawURL '#'
  match parse u with
  | .error e => .error e
  | .ok url => if frag = [] then .ok url else url.setFragment frag

/-- The method `(*Userinfo).Username`; the nil receiver gives the empty string. -/
def Userinfo.Username (u : Userinfo) : GoString := u.username

/-! ## `parseDSN` -/

/-- The errors `parseDSN` builds with `fmt.Errorf`. -/
inductive DSNError where
  /-- The text "failed to parse DSN: %w". -/
  | failedToParse (e : UrlError)
  /-- The text "DSN must contain an API key as username". -/
  | noAPIKey
  /-- The text "DSN must contain a non-empty API key". -/
  | emptyAPIKey
deriving DecidableEq

/-- The three results of `parseDSN`; `err = none` is the nil error. -/
structure DSNResult where
  endpoint : GoString
  apiKey : GoString
  err : Option DSNError
deriving DecidableEq

/-- The function `parseDSN`. -/
def parseDSN (dsn : GoString) : DSNResult :=
  match Parse dsn with
  | .error e => ⟨[], [], some (.failedToParse e)⟩
  | .ok u =>
    match u.User with
    | none => ⟨[], [], some .noAPIKey⟩
    | some user =>
      let apiKey := user.Username
      if apiKey = [] then ⟨[], [], some .emptyAPIKey⟩
      else
        -- fmt.Sprintf("%s://%s", u.Scheme, u.Host)
        let endpoint := u.Scheme ++ [':', '/', '/'] ++ u.Host
        ⟨endpoint, apiKey, none⟩

/-! ## The data model of package `obs` -/

/-- The type `Options`. -/
structure Options where
  DSN : GoString
  Environment : GoString
  ServerName : GoString

/-- The type `StackFrame`. -/
structure StackFrame where
  Filename : GoString
  Function : GoString
  Lineno : Int
deriving DecidableEq

/-- The type `Event`; a nil slice and a nil map are the empty list. -/
structure Event where
  EventID : GoString
  Level : GoString
  Message : GoString
  Stacktrace : List StackFrame
  Platform : GoString
  Timestamp : GoString
  ServerName : GoString
  Environment : GoString
  Extra : List (GoString × GoString)
deriving DecidableEq

/-- A buffered channel `chan *Event`: its buffer, oldest element first, and
the capacity it was made with. -/
structure EventChan where
  buf : List Event
  cap : Nat
deriving DecidableEq

/-- The type `client`.  The signal channels `quit` and `done` carry no value
and are only ever closed: each is the flag "has been closed".  The field `mu`
is never used by the package and is left out. -/
structure client where
  endpoint : GoString
  apiKey : GoString
  env : GoString
  serverName : GoString
  events : EventChan
  quit : Bool
  done : Bool
deriving DecidableEq

/-- An `*http.Request` as `send` builds it. -/
structure Request where
  Method : GoString
  URL : GoString
  Header : List (GoString × GoString)
  Body : GoString
deriving DecidableEq

/-- What `http.DefaultClient.Do` returns: a non-nil error, or a response,
which has a status code, with a nil error. -/
inductive DoResult where
  | err (msg : GoString)
  | response (StatusCode : Nat)
deriving DecidableEq

/-- A line written to `os.Stderr`, by the call that writes it. -/
inductive LogLine where
  /-- The line `fmt.Fprintf(os.Stderr, "obs: invalid DSN: %v\n", err)` of `Init`. -/
  | invalidDSN (err : DSNError)
  /-- The line `fmt.Fprintf(os.Stderr, "obs: failed to send event: %v\n", err)` of `send`. -/
  | failedToSend (err : GoString)
deriving DecidableEq

/-- Where the goroutine `worker` stands: in its outer loop, in the loop that
drains the queue after `quit` was closed, or returned. -/
inductive Phase where
  | running
  | draining
  | exited
deriving DecidableEq

/-- The state of the process as far as package `obs` touches it: the variable
`globalClient` (with the client it points to), the goroutine started by
`Init` for that client, the events that goroutine has passed to `send`, the
requests passed to `http.DefaultClient.Do`, and the lines written to
`os.Stderr`, each oldest first.  The goroutine of a client that `Init` has
replaced is not followed. -/
structure Process where
  globalClient : Option client := none
  worker : Phase := .exited
  handed : List Event := []
  requests : List Request := []
  stderr : List LogLine := []
deriving DecidableEq

/-- What one capture call reads from the Go runtime: the values of its calls
of `time.Now().UnixNano()` in `generateEventID`, the formatted time
`time.Now().UTC().Format("2006-01-02 15:04:05")`, and the frames that
`runtime.CallersFrames` iterates over for the program counters collected by
`runtime.Callers`. -/
structure Moment where
  clock : Nat → Int
  timestamp : GoString
  frames : List StackFrame

/-- The library functions `send` calls: `json.Marshal` (`none` when it returns
an error) and `http.DefaultClient.Do`, whose result may depend on how many
requests went before. -/
structure Transport where
  jsonMarshal : Event → Option GoString
  httpDo : Nat → Request → DoResult

/-- A Go panic raised by the runtime. -/
inductive Panic where
  | closeOfClosedChannel
deriving DecidableEq

/-! ## The functions of package `obs` -/

/-- The function `Init`; `hostname` is what `os.Hostname()` returns. -/
def Init (hostname : GoString) (options : Options) (p : Process) : Process :=
  let r := parseDSN options.DSN
  match r.err with
  | some err => { p with stderr := p.stderr ++ [.invalidDSN err] }
  | none =>
    let serverName := if options.ServerName = [] then hostname else options.ServerName
    let c : client :=
      { endpoint := r.endpoint
        apiKey := r.apiKey
        env := options.Environment
        serverName := serverName
        events := { buf := [], cap := 256 }
        quit := false
        done := false }
    { p with globalClient := some c, worker := .running }

/-- The loop of `captureStack` over the frames still to come: every turn
appends the frame `frames.Next()` returns, which is the zero frame when there
is none, and stops when no more follow. -/
def captureStackFrom (stack : List StackFrame) : List StackFrame → List StackFrame
  | [] => stack ++ [{ Filename := [], Function := [], Lineno := 0 }]
  | [frame] => stack ++ [frame]
  | frame :: next :: more => captureStackFrom (stack ++ [frame]) (next :: more)

/-- The function `captureStack`, given the frames the runtime reports. -/
def captureStack (frames : List StackFrame) : List StackFrame :=
  captureStackFrom [] frames

/-- The `Event` literal of `captureEvent`. -/
def newEvent (c : client) (m : Moment) (id level message : GoString)
    (stack : List StackFrame) : Event :=
  { EventID := id
    Level := level
    Message := message
    Stacktrace := stack
    Platform := "go".toList
    Timestamp := m.timestamp
    ServerName := c.serverName
    Environment := c.env
    Extra := [] }

/-- The statement `select { case c.events <- event: default: }`: a send that
does not block. -/
def trySend (ch : EventChan) (event : Event) : EventChan :=
  if ch.buf.length < ch.cap then { ch with buf := ch.buf ++ [event] } else ch

/-- The function `captureEvent`: the identifier it returns and the state it leaves. -/
def captureEvent (m : Moment) (level message : GoString) (stack : List StackFrame)
    (p : Process) : GoString × Process :=
  match p.globalClient with
  | none => ([], p)
  | some c =>
    let id := generateEventID m.clock
    let event := newEvent c m id level message stack
    (id, { p with globalClient := some { c with events := trySend c.events event } })

/-- The function `CaptureException`; `err = none` is the nil error and
`some msg` an error whose method `Error` returns `msg`. -/
def CaptureException (m : Moment) (err : Option GoString) (p : Process) : GoString × Process :=
  match err with
  | none => ([], p)
  | some msg => captureEvent m "error".toList msg (captureStack m.frames) p

/-- The function `CaptureMessage`. -/
def CaptureMessage (m : Moment) (msg : GoString) (p : Process) : GoString × Process :=
  captureEvent m "info".toList msg [] p

/-- The function `http.NewRequest` for a valid method: it fails exactly when
`url.Parse` does. -/
def NewRequest (method url body : GoString) : Option Request :=
  match Parse url with
  | .error _ => none
  | .ok _ => some { Method := method, URL := url, Header := [], Body := body }

/-- The method `Header.Set`; the key is kept as written, its canonical
spelling is not computed. -/
def Request.headerSet (req : Request) (key value : GoString) : Request :=
  { req with Header := req.Header.filter (fun kv => kv.1 ≠ key) ++ [(key, value)] }

/-- The method `(*client).send`. -/
def send (tr : Transport) (c : client) (event : Event) (p : Process) : Process :=
  match tr.jsonMarshal event with
  | none => p
  | some body =>
    match NewRequest "POST".toList (c.endpoint ++ "/api/events".toList) body with
    | none => p
    | some req =>
      let req := req.headerSet "Content-Type".toList "application/json".toList
      let req := req.headerSet "X-OBS-Key".toList c.apiKey
      match tr.httpDo p.requests.length req with
      | .err msg =>
        { p with requests := p.requests ++ [req], stderr := p.stderr ++ [.failedToSend msg] }
      | .response _ => { p with requests := p.requests ++ [req] }

/-- The receive `event := <-c.events` of the worker: `event` leaves the queue,
of which `rest` remains, and is about to be passed to `send`. -/
def Process.received (p : Process) (c : client) (event : Event) (rest : List Event) : Process :=
  { p with
    globalClient := some { c with events := { c.events with buf := rest } }
    handed := p.handed ++ [event] }

/-- One step of the goroutine `worker` of the current client.  In the outer
loop it waits until an event is queued or `quit` is closed; when both are
ready `pickQuit` tells which case the `select` takes.  In the draining loop it
sends the next queued event, or, the queue being empty, returns, and the
deferred `close(c.done)` runs. -/
def workerStep (tr : Transport) (pickQuit : Bool) (p : Process) : Process :=
  match p.globalClient with
  | none => p
  | some c =>
    match p.worker with
    | .running =>
      match c.events.buf with
      | [] => if c.quit then { p with worker := .draining } else p
      | event :: rest =>
        if c.quit ∧ pickQuit then { p with worker := .draining }
        else send tr c event (p.received c event rest)
    | .draining =>
      match c.events.buf with
      | event :: rest => send tr c event (p.received c event rest)
      | [] => { p with worker := .exited, globalClient := some { c with done := true } }
    | .exited => p

/-- The goroutine `worker` taking the steps `picks`, one entry per step. -/
def runWorker (tr : Transport) (picks : List Bool) (p : Process) : Process :=
  picks.foldl (fun q pick => workerStep tr pick q) p

/-- Whether the channel `done` of the current client has been closed. -/
def Process.doneClosed (p : Process) : Bool :=
  match p.globalClient with
  | none => false
  | some c => c.done

/-- The queue of the current client. -/
def Process.queue (p : Process) : List Event :=
  match p.globalClient with
  | none => []
  | some c => c.events.buf

/-- The `select` of `Flush`: the caller waits while the worker runs.  `pace`
lists the steps the worker takes next, each with the choice of its `select`
and the time it takes; `remaining` is the time left before the timer fires.
The result is `true` when `done` is seen closed. -/
def flushWait (tr : Transport) : Int → List (Bool × Int) → Process → Bool × Process
  | remaining, pace, p =>
    if p.doneClosed then (true, p)
    else
      match pace with
      | [] => (false, p)
      | (pick, cost) :: more =>
        if cost ≤ remaining then flushWait tr (remaining - cost) more (workerStep tr pick p)
        else (false, p)

/-- The function `Flush`: a panic, or the boolean returned and the state left. -/
def Flush (tr : Transport) (timeout : Int) (pace : List (Bool × Int)) (p : Process) :
    Except Panic (Bool × Process) :=
  match p.globalClient with
  | none => .ok (true, p)
  | some c =>
    -- close(c.quit)
    if c.quit then .error .closeOfClosedChannel
    else .ok (flushWait tr timeout pace { p with globalClient := some { c with quit := true } })

/-! ## Sequences of captures -/

/-- A capture call that does something: `CaptureMessage(msg)`, or
`CaptureException(err)` with a non-nil `err` whose text is `msg`. -/
inductive Capture where
  | message (m : Moment) (msg : GoString)
  | exception (m : Moment) (msg : GoString)

/-- The call a `Capture` stands for. -/
def Capture.call : Capture → Process → GoString × Process
  | .message m msg, p => CaptureMessage m msg p
  | .exception m msg, p => CaptureException m (some msg) p

/-- The calls of a list of captures, one after the other: the identifiers
returned, in order, and the state left. -/
def captureAll : List Capture → Process → List GoString × Process
  | [], p => ([], p)
  | cap :: caps, p =>
    let r := cap.call p
    let rs := captureAll caps r.2
    (r.1 :: rs.1, rs.2)

/-- The identifier the capture generates. -/
def Capture.id : Capture → GoString
  | .message m _ => generateEventID m.clock
  | .exception m _ => generateEventID m.clock

/-- The event the capture builds for the client `c`. -/
def Capture.event (c : client) : Capture → Event
  | .message m msg => newEvent c m (generateEventID m.clock) "info".toList msg []
  | .exception m msg =>
    newEvent c m (generateEventID m.clock) "error".toList msg (captureStack m.frames)

/-- What the specification asks of the event delivered for a capture. -/
def Delivers (c : client) : Capture → Event → Prop
  | .message _ msg, e =>
    e.Level = "info".toList ∧ e.Message = msg ∧ e.Platform = "go".toList ∧
      e.Environment = c.env ∧ e.ServerName = c.serverName
  | .exception _ msg, e =>
    e.Level = "error".toList ∧ e.Message = msg ∧ e.Platform = "go".toList ∧
      e.Environment = c.env ∧ e.ServerName = c.serverName ∧ e.Stacktrace ≠ []

/-- The process `p` with `globalClient` pointing to `c` with the queue `ch`. -/
def Process.withQueue (p : Process) (c : client) (ch : EventChan) : Process :=
  { p with globalClient := some { c with events := ch } }

/-- A client as `Init` leaves it, before any capture and before its worker
has taken a step: empty queue of capacity 256, both signals open. -/
def Fresh (p : Process) (c : client) : Prop :=
  p.globalClient = some c ∧ c.events = { buf := [], cap := 256 } ∧ c.quit = false ∧
    c.done = false ∧ p.worker = .running

/-- The state after the statement `close(c.quit)` of `Flush` on an open signal. -/
def Process.closeQuit (p : Process) : Process :=
  match p.globalClient with
  | none => p
  | some c => { p with globalClient := some { c with quit := true } }

/-- The number of steps the worker needs in a phase once its queue is empty. -/
def Phase.rank : Phase → Nat
  | .running => 2
  | .draining => 1
  | .exited => 0

/-- The state of a worker that is emptying a queue that held the events `E`
when `quit` was closed, `H` having been passed to `send` before: some number
`j` of them have been passed to `send`, in order, the rest are queued, `done`
is closed exactly when the worker has returned, which it does only with the
queue empty, and `n` steps remain until then. -/
def Emptying (H E : List Event) (n : Nat) (s : Process) : Prop :=
  ∃ (j : Nat) (d : client), j ≤ E.length ∧ s.globalClient = some d ∧
    d.events.buf = E.drop j ∧ d.quit = true ∧ s.handed = H ++ E.take j ∧
    d.done = decide (s.worker = .exited) ∧ (s.worker = .exited → j = E.length) ∧
    (E.length - j) + s.worker.rank = n

/-- The request `send` builds for the client `c` and the encoded event `body`,
`none` when `http.NewRequest` fails. -/
def client.request (c : client) (body : GoString) : Option Request :=
  (NewRequest "POST".toList (c.endpoint ++ "/api/events".toList) body).map fun req =>
    (req.headerSet "Content-Type".toList "application/json".toList).headerSet
      "X-OBS-Key".toList c.apiKey

/-! ## The setting of the package's tests, as concrete inputs -/

/-- The options of `TestCaptureException`, with a fixed listener address. -/
def testOptions : Options :=
  { DSN := "http://testkey@127.0.0.1:8000".toList
    Environment := "test".toList
    ServerName := "test-host".toList }

/-- The client `Init` builds from `testOptions`. -/
def testClient : client :=
  { endpoint := "http://127.0.0.1:8000".toList
    apiKey := "testkey".toList
    env := "test".toList
    serverName := "test-host".toList
    events := { buf := [], cap := 256 }
    quit := false
    done := false }

/-- The process after `Init(testOptions)`. -/
def testProcess : Process := Init "localhost".toList testOptions {}

/-- A moment of the run of a test. -/
def testMoment : Moment :=
  { clock := fun k => 1700000000000000000 + k
    timestamp := "2023-11-14 22:13:20".toList
    frames := [{ Filename := "obs_test.go".toList, Function := "TestCaptureException".toList,
                 Lineno := 154 }] }

/-- A transport whose every round trip has the result `r`; the body stands
for the JSON text of the event. -/
def testTransport (r : DoResult) : Transport :=
  { jsonMarshal := fun e => some e.Message
    httpDo := fun _ _ => r }

/-- The captures of `TestCaptureMessage` and `TestCaptureException`. -/
def testCaptures : List Capture :=
  [.message testMoment "deployment started".toList,
   .exception testMoment "something broke".toList]

/-- The event of `TestCaptureMessage` on the client of the tests. -/
def testEvent : Event :=
  Capture.event testClient (.message testMoment "deployment started".toList)

/-- The request `send` builds for `testEvent` on the client of the tests. -/
def testRequest : Request :=
  { Method := "POST".toList
    URL := "http://127.0.0.1:8000/api/events".toList
    Header := [("Content-Type".toList, "application/json".toList),
      ("X-OBS-Key".toList, "testkey".toList)]
    Body := "deployment started".toList }

/-- The request `send` passes to the transport for the event `e` on the
client `c`: `none` when `send` returns before the call, encoding or building
the request having failed. -/
def client.post (tr : Transport) (c : client) (e : Event) : Option Request :=
  (tr.jsonMarshal e).bind c.request

/-- The worker of a client with the endpoint and key of `c` has passed the
events `hs` to `send` since the state with trace `H` and requests `R`, and the
transport has been passed the requests of exactly those events, in order. -/
def Posting (tr : Transport) (c : client) (H : List Event) (R : List Request)
    (s : Process) : Prop :=
  ∃ (d : client) (hs : List Event), s.globalClient = some d ∧ d.endpoint = c.endpoint ∧
    d.apiKey = c.apiKey ∧ s.handed = H ++ hs ∧ s.requests = R ++ hs.filterMap (c.post tr)

/-- The transport is passed, for the capture `cap` on the client `c`, the
request `req`: the event of the capture is encoded, and `req` is the request
`send` builds around that encoding. -/
def Posts (tr : Transport) (c : client) (cap : Capture) (req : Request) : Prop :=
  ∃ body : GoString, tr.jsonMarshal (cap.event c) = some body ∧ c.request body = some req ∧
    req.Body = body ∧ req.Method = "POST".toList

/-- Options whose connection string has no scheme. -/
def schemelessOptions : Options :=
  { DSN := "//key@host".toList
    Environment := "test".toList
    ServerName := "test-host".toList }

/-- The client `Init` builds from `schemelessOptions`. -/
def schemelessClient : client :=
  { endpoint := "://host".toList
    apiKey := "key".toList
    env := "test".toList
    serverName := "test-host".toList
    events := { buf := [], cap := 256 }
    quit := false
    done := false }

/-- The process after `Init(schemelessOptions)`. -/
def schemelessProcess : Process := Init "localhost".toList schemelessOptions {}

/-! ## The shape of a valid connection string -/

/-- The lower-case letters. -/
def lowerLetters : GoString := "abcdefghijklmnopqrstuvwxyz".toList

/-- The characters of a lower-case URI scheme after its first letter. -/
def schemeChars : GoString := "abcdefghijklmnopqrstuvwxyz0123456789+-.".toList

/-- The characters of an API key that stand for themselves in the user part
of a URI: every character `validUserinfo` accepts except `%` and `:`. -/
def keyChars : GoString :=
  "ABCDEFGHIJKLMNOPQRSTUVWXYZabcdefghijklmnopqrstuvwxyz0123456789-._~!$&'()*+,;=@".toList

/-- The characters of a registered host name other than `%`. -/
def hostChars : GoString :=
  "ABCDEFGHIJKLMNOPQRSTUVWXYZabcdefghijklmnopqrstuvwxyz0123456789-._~!$&'()*+,;=".toList

/-- The decimal digits. -/
def digitChars : GoString := "0123456789".toList

/-- A lower-case scheme: a lower-case letter, then lower-case letters, digits, `+`, `-`, `.`. -/
def validScheme (scheme : GoString) : Bool :=
  match scheme with
  | [] => false
  | c :: rest => lowerLetters.contains c && rest.all fun x => schemeChars.contains x

/-- A non-empty key of characters that stand for themselves. -/
def validKey (key : GoString) : Bool :=
  !key.isEmpty && key.all fun x => keyChars.contains x

/-- A host name of characters that stand for themselves. -/
def validHost (host : GoString) : Bool := host.all fun x => hostChars.contains x

/-- The optional port: nothing, or a colon and decimal digits. -/
def validPort (port : GoString) : Bool :=
  match port with
  | [] => true
  | c :: ds => c = ':' && ds.all fun x => digitChars.contains x

/-- The connection string `scheme://key@host[:port]`; `port` includes its colon. -/
def connectionString (scheme key host port : GoString) : GoString :=
  scheme ++ "://".toList ++ key ++ "@".toList ++ host ++ port

/-- The connection string `scheme://host[:port]` with the credential removed. -/
def endpointString (scheme host port : GoString) : GoString :=
  scheme ++ "://".toList ++ host ++ port

/-! ## Theorems: `generateEventID` -/

/-- The buffer of `generateEventID`, byte by byte. -/
theorem eventIDBytes_eq (clock : Nat → Int) :
    eventIDBytes clock =
      [byte (sar (clock 0) 56), byte (sar (clock 0) 48), byte (sar (clock 0) 40),
       byte (sar (clock 0) 32), byte (sar (clock 0) 24), byte (sar (clock 0) 16),
       (byte (sar (clock 1) 0) &&& 0x0f) ||| 0x40, byte (sar (clock 2) 8),
       (byte (sar (clock 3) 16) &&& 0x3f) ||| 0x80, byte (sar (clock 4) 24),
       byte (sar (clock 5) 32), byte (sar (clock 6) 40), byte (sar (clock 7) 48),
       byte (sar (clock 8) 56), 0, 0] := rfl

/-- The formatted identifier, character by character. -/
theorem formatUUID_eq (b0 b1 b2 b3 b4 b5 b6 b7 b8 b9 b10 b11 b12 b13 b14 b15 : Nat) :
    formatUUID [b0, b1, b2, b3, b4, b5, b6, b7, b8, b9, b10, b11, b12, b13, b14, b15] =
      [hexDigit (b0 / 16), hexDigit (b0 % 16), hexDigit (b1 / 16), hexDigit (b1 % 16),
       hexDigit (b2 / 16), hexDigit (b2 % 16), hexDigit (b3 / 16), hexDigit (b3 % 16), '-',
       hexDigit (b4 / 16), hexDigit (b4 % 16), hexDigit (b5 / 16), hexDigit (b5 % 16), '-',
       hexDigit (b6 / 16), hexDigit (b6 % 16), hexDigit (b7 / 16), hexDigit (b7 % 16), '-',
       hexDigit (b8 / 16), hexDigit (b8 % 16), hexDigit (b9 / 16), hexDigit (b9 % 16), '-',
       hexDigit (b10 / 16), hexDigit (b10 % 16), hexDigit (b11 / 16), hexDigit (b11 % 16),
       hexDigit (b12 / 16), hexDigit (b12 % 16), hexDigit (b13 / 16), hexDigit (b13 % 16),
       hexDigit (b14 / 16), hexDigit (b14 % 16), hexDigit (b15 / 16), hexDigit (b15 % 16)] := rfl

theorem isLowerHex_hexDigit (n : Nat) : isLowerHex (hexDigit n) = true := by
  unfold hexDigit
  split <;> decide

theorem version_byte (x : Nat) : (x &&& 0x0f) ||| 0x40 = x % 16 + 64 := by
  have h : x &&& 0x0f = x % 16 := Nat.and_pow_two_sub_one_eq_mod x 4
  have h2 : x % 16 ||| 64 = x % 16 + 64 := by
    have : x % 16 < 16 := Nat.mod_lt _ (by decide)
    interval_cases (x % 16) <;> rfl
  rw [h, h2]

theorem variant_byte (x : Nat) : (x &&& 0x3f) ||| 0x80 = x % 64 + 128 := by
  have h : x &&& 0x3f = x % 64 := Nat.and_pow_two_sub_one_eq_mod x 6
  have h2 : x % 64 ||| 128 = x % 64 + 128 := by
    have : x % 64 < 64 := Nat.mod_lt _ (by decide)
    interval_cases (x % 64) <;> rfl
  rw [h, h2]

theorem hexDigit_version (x : Nat) : hexDigit (((x &&& 0x0f) ||| 0x40) / 16) = '4' := by
  have h3 : ((x &&& 0x0f) ||| 0x40) / 16 = 4 := by rw [version_byte]; omega
  rw [h3]; rfl

theorem hexDigit_variant (x : Nat) :
    hexDigit (((x &&& 0x3f) ||| 0x80) / 16) ∈ ['8', '9', 'a', 'b'] := by
  have h3 : ((x &&& 0x3f) ||| 0x80) / 16 = 8 ∨ ((x &&& 0x3f) ||| 0x80) / 16 = 9 ∨
      ((x &&& 0x3f) ||| 0x80) / 16 = 10 ∨ ((x &&& 0x3f) ||| 0x80) / 16 = 11 := by
    rw [variant_byte]; omega
  rcases h3 with h3 | h3 | h3 | h3 <;> rw [h3] <;> decide

theorem generateEventID_length (clock : Nat → Int) : (generateEventID clock).length = 36 := by
  unfold generateEventID
  rw [eventIDBytes_eq, formatUUID_eq]
  rfl

theorem generateEventID_ne_nil (clock : Nat → Int) : generateEventID clock ≠ [] := by
  intro h
  have := generateEventID_length clock
  rw [h] at this
  simp at this

/-- C3. Whatever the clock readings, `generateEventID` returns a string of
exactly 36 characters with a hyphen at positions 8, 13, 18 and 23, a lower-case
hexadecimal digit at every other position, the digit `4` at position 14 and one
of `8`, `9`, `a`, `b` at position 19. -/
theorem generateEventID_uuid_shape (clock : Nat → Int) :
    (generateEventID clock).length = 36 ∧
    (∀ i : Fin 36,
      if i.val ∈ [8, 13, 18, 23] then (generateEventID clock).getD i.val ' ' = '-'
      else isLowerHex ((generateEventID clock).getD i.val ' ') = true) ∧
    (generateEventID clock).getD 14 ' ' = '4' ∧
    (generateEventID clock).getD 19 ' ' ∈ ['8', '9', 'a', 'b'] := by
  unfold generateEventID
  rw [eventIDBytes_eq, formatUUID_eq]
  refine ⟨rfl, ?_, hexDigit_version _, hexDigit_variant _⟩
  intro i
  fin_cases i <;> simp [isLowerHex_hexDigit]

/-- C10. Whatever the clock readings, bytes 14 and 15 of the buffer are zero
and the identifier ends in the four characters `0000`. -/
theorem generateEventID_suffix_zero (clock : Nat → Int) :
    (eventIDBytes clock).drop 14 = [0, 0] ∧
    (generateEventID clock).drop 32 = ['0', '0', '0', '0'] := by
  unfold generateEventID
  rw [eventIDBytes_eq, formatUUID_eq]
  exact ⟨rfl, rfl⟩

theorem hexDigit_inj : ∀ m < 16, ∀ n < 16, hexDigit m = hexDigit n → m = n := by decide

theorem hexByte_inj (a b : Nat) (ha : a < 256) (hb : b < 256)
    (hhi : hexDigit (a / 16) = hexDigit (b / 16)) (hlo : hexDigit (a % 16) = hexDigit (b % 16)) :
    a = b := by
  have h1 := hexDigit_inj (a / 16) (by omega) (b / 16) (by omega) hhi
  have h2 := hexDigit_inj (a % 16) (by omega) (b % 16) (by omega) hlo
  omega

theorem byte_lt (x : Int) : byte x < 256 := by
  unfold byte; omega

theorem sar_zero (t : Int) : sar t 0 = t := by
  unfold sar
  have : Int.shiftRight t 0 = t / ((2 ^ 0 : Nat) : Int) := Int.shiftRight_eq_div_pow t 0
  rw [this]; simp

theorem sar_add_eight (t : Int) (k : Nat) : sar t (k + 8) = sar t k / 256 := by
  unfold sar
  have h1 : Int.shiftRight t (k + 8) = Int.shiftRight (Int.shiftRight t k) 8 :=
    Int.shiftRight_add t k 8
  have h2 : Int.shiftRight (Int.shiftRight t k) 8 = Int.shiftRight t k / ((2 ^ 8 : Nat) : Int) :=
    Int.shiftRight_eq_div_pow _ 8
  rw [h1, h2]
  norm_num

/-- The shifts of `generateEventID` as iterated divisions by 256. -/
theorem sar_steps (t : Int) :
    sar t 8 = t / 256 ∧ sar t 16 = t / 256 / 256 ∧ sar t 24 = t / 256 / 256 / 256 ∧
    sar t 32 = t / 256 / 256 / 256 / 256 ∧ sar t 40 = t / 256 / 256 / 256 / 256 / 256 ∧
    sar t 48 = t / 256 / 256 / 256 / 256 / 256 / 256 ∧
    sar t 56 = t / 256 / 256 / 256 / 256 / 256 / 256 / 256 := by
  have e8 : sar t 8 = t / 256 := by rw [sar_add_eight t 0, sar_zero]
  have e16 : sar t 16 = t / 256 / 256 := by rw [sar_add_eight t 8, e8]
  have e24 : sar t 24 = t / 256 / 256 / 256 := by rw [sar_add_eight t 16, e16]
  have e32 : sar t 32 = t / 256 / 256 / 256 / 256 := by rw [sar_add_eight t 24, e24]
  have e40 : sar t 40 = t / 256 / 256 / 256 / 256 / 256 := by rw [sar_add_eight t 32, e32]
  have e48 : sar t 48 = t / 256 / 256 / 256 / 256 / 256 / 256 := by rw [sar_add_eight t 40, e40]
  have e56 : sar t 56 = t / 256 / 256 / 256 / 256 / 256 / 256 / 256 := by
    rw [sar_add_eight t 48, e48]
  exact ⟨e8, e16, e24, e32, e40, e48, e56⟩

/-- The identifier produced when every clock reading is `t`, byte by byte. -/
theorem eventIDBytesAt_eq (t : Int) :
    eventIDBytes (fun _ => t) =
      [byte (sar t 56), byte (sar t 48), byte (sar t 40), byte (sar t 32), byte (sar t 24),
       byte (sar t 16), byte (sar t 0) % 16 + 64, byte (sar t 8), byte (sar t 16) % 64 + 128,
       byte (sar t 24), byte (sar t 32), byte (sar t 40), byte (sar t 48), byte (sar t 56),
       0, 0] := by
  rw [eventIDBytes_eq, version_byte, variant_byte]

/-- Formatting loses nothing: equal identifiers come from equal buffers. -/
theorem generateEventIDAt_eq_iff_bytes (t1 t2 : Int) :
    generateEventIDAt t1 = generateEventIDAt t2 ↔
      eventIDBytes (fun _ => t1) = eventIDBytes (fun _ => t2) := by
  constructor
  · intro h
    unfold generateEventIDAt generateEventID at h
    rw [eventIDBytesAt_eq, eventIDBytesAt_eq] at h ⊢
    rw [formatUUID_eq, formatUUID_eq] at h
    simp only [List.cons.injEq, and_true, true_and] at h
    obtain ⟨a0, a0', a1, a1', a2, a2', a3, a3', a4, a4', a5, a5', a6, a6', a7, a7', -⟩ := h
    have b6 : ∀ t : Int, byte (sar t 0) % 16 + 64 < 256 := fun t => by omega
    rw [hexByte_inj _ _ (byte_lt _) (byte_lt _) a0 a0', hexByte_inj _ _ (byte_lt _) (byte_lt _) a1 a1',
      hexByte_inj _ _ (byte_lt _) (byte_lt _) a2 a2', hexByte_inj _ _ (byte_lt _) (byte_lt _) a3 a3',
      hexByte_inj _ _ (byte_lt _) (byte_lt _) a4 a4', hexByte_inj _ _ (byte_lt _) (byte_lt _) a5 a5',
      hexByte_inj _ _ (b6 _) (b6 _) a6 a6', hexByte_inj _ _ (byte_lt _) (byte_lt _) a7 a7']
  · intro h
    unfold generateEventIDAt generateEventID
    rw [h]

theorem int64_top_byte (t : Int) (h : -2 ^ 63 ≤ t ∧ t < 2 ^ 63) :
    -128 ≤ t / 256 / 256 / 256 / 256 / 256 / 256 / 256 ∧
      t / 256 / 256 / 256 / 256 / 256 / 256 / 256 < 128 := by
  norm_num at h
  omega

theorem eq_of_div_of_byte (a b : Int) (hq : a / 256 = b / 256)
    (hr : (a % 256).toNat = (b % 256).toNat) : a = b := by
  omega

theorem eq_of_small_of_byte (a b : Int) (ha : -128 ≤ a ∧ a < 128) (hb : -128 ≤ b ∧ b < 128)
    (hr : (a % 256).toNat = (b % 256).toNat) : a = b := by
  omega

/-- C4, as amended. For clock values in the `int64` range, two calls that each
read one clock value throughout return the same identifier exactly when the
two values agree outside bits 4 to 7; in particular values at least 256
nanoseconds apart give distinct identifiers. -/
theorem generateEventIDAt_eq_iff (t1 t2 : Int)
    (h1 : -2 ^ 63 ≤ t1 ∧ t1 < 2 ^ 63) (h2 : -2 ^ 63 ≤ t2 ∧ t2 < 2 ^ 63) :
    (generateEventIDAt t1 = generateEventIDAt t2 ↔ t1 / 256 = t2 / 256 ∧ t1 % 16 = t2 % 16) ∧
    (256 ≤ |t1 - t2| → generateEventIDAt t1 ≠ generateEventIDAt t2) := by
  have key : generateEventIDAt t1 = generateEventIDAt t2 ↔
      t1 / 256 = t2 / 256 ∧ t1 % 16 = t2 % 16 := by
    rw [generateEventIDAt_eq_iff_bytes, eventIDBytesAt_eq, eventIDBytesAt_eq]
    obtain ⟨p8, p16, p24, p32, p40, p48, p56⟩ := sar_steps t1
    obtain ⟨q8, q16, q24, q32, q40, q48, q56⟩ := sar_steps t2
    simp only [List.cons.injEq, and_true, sar_zero, p8, p16, p24, p32, p40, p48, p56,
      q8, q16, q24, q32, q40, q48, q56, byte]
    constructor
    · rintro ⟨c7, c6, c5, c4, c3, c2, c0, c1, -⟩
      have e7 := eq_of_small_of_byte _ _ (int64_top_byte t1 h1) (int64_top_byte t2 h2) c7
      have e6 := eq_of_div_of_byte _ _ e7 c6
      have e5 := eq_of_div_of_byte _ _ e6 c5
      have e4 := eq_of_div_of_byte _ _ e5 c4
      have e3 := eq_of_div_of_byte _ _ e4 c3
      have e2 := eq_of_div_of_byte _ _ e3 c2
      have e1 := eq_of_div_of_byte _ _ e2 c1
      exact ⟨e1, by omega⟩
    · rintro ⟨h, h'⟩
      rw [h]
      refine ⟨rfl, rfl, rfl, rfl, rfl, rfl, ?_, rfl, rfl, rfl, rfl, rfl, rfl, rfl⟩
      omega
  refine ⟨key, ?_⟩
  intro hd
  rw [Ne, key]
  rw [le_abs] at hd
  omega

/-- C4, witness of the amended statement: two clock values one microsecond apart. -/
theorem generateEventIDAt_eq_iff_witness :
    generateEventIDAt 1700000000000000000 ≠ generateEventIDAt 1700000000000001000 :=
  (generateEventIDAt_eq_iff 1700000000000000000 1700000000000001000
    (by norm_num) (by norm_num)).2 (by norm_num)

/-- C4, counterexample: two distinct clock values, 16 nanoseconds apart, for
which `generateEventID` returns the same identifier. -/
theorem generateEventIDAt_collision :
    (1700000000000000000 : Int) ≠ 1700000000000000016 ∧
    generateEventIDAt 1700000000000000000 = generateEventIDAt 1700000000000000016 := by
  decide

/-! ## Theorems: capture and the queue -/

theorem captureEvent_some (m : Moment) (level message : GoString) (stack : List StackFrame)
    (p : Process) (c : client) (hc : p.globalClient = some c) :
    captureEvent m level message stack p =
      (generateEventID m.clock,
        p.withQueue c
          (trySend c.events (newEvent c m (generateEventID m.clock) level message stack))) := by
  unfold captureEvent
  rw [hc]
  rfl

theorem Capture.call_some (cap : Capture) (p : Process) (c : client)
    (hc : p.globalClient = some c) :
    cap.call p =
      (cap.id, p.withQueue c (trySend c.events (cap.event c))) := by
  cases cap <;>
    simp [Capture.call, CaptureMessage, CaptureException, captureEvent_some _ _ _ _ p c hc,
      Capture.id, Capture.event]

theorem Capture.id_ne_nil (cap : Capture) : cap.id ≠ [] := by
  cases cap <;> exact generateEventID_ne_nil _

theorem Capture.event_eq_of (c d : client) (h1 : d.serverName = c.serverName)
    (h2 : d.env = c.env) : Capture.event d = Capture.event c := by
  funext cap
  cases cap <;> simp [Capture.event, newEvent, h1, h2]

/-- The queue after a list of sends that do not block. -/
theorem foldl_trySend (cap : Nat) (es : List Event) :
    ∀ buf : List Event, buf.length ≤ cap →
      es.foldl trySend { buf := buf, cap := cap } = { buf := (buf ++ es).take cap, cap := cap } := by
  induction es with
  | nil =>
    intro buf h
    simp [List.take_of_length_le h]
  | cons e es ih =>
    intro buf h
    rw [List.foldl_cons]
    by_cases hlt : buf.length < cap
    · have : trySend { buf := buf, cap := cap } e = { buf := buf ++ [e], cap := cap } := by
        simp [trySend, hlt]
      rw [this, ih (buf ++ [e]) (by simp; omega)]
      simp
    · have heq : buf.length = cap := by omega
      have : trySend { buf := buf, cap := cap } e = { buf := buf, cap := cap } := by
        simp [trySend, hlt]
      rw [this, ih buf h]
      have h1 : (buf ++ es).take cap = buf := by
        rw [← heq, List.take_left]
      have h2 : (buf ++ e :: es).take cap = buf := by
        rw [← heq, List.take_left]
      rw [h1, h2]

/-- A list of captures on a process with a client: the identifiers returned
and the queue left. -/
theorem captureAll_some (caps : List Capture) :
    ∀ (p : Process) (c : client), p.globalClient = some c →
      captureAll caps p =
        (caps.map Capture.id,
          p.withQueue c ((caps.map (Capture.event c)).foldl trySend c.events)) := by
  induction caps with
  | nil =>
    intro p c hc
    simp [captureAll, Process.withQueue, ← hc]
  | cons cap caps ih =>
    intro p c hc
    unfold captureAll
    rw [Capture.call_some cap p c hc]
    simp only []
    rw [ih _ { c with events := trySend c.events (cap.event c) } rfl]
    rw [Capture.event_eq_of c { c with events := trySend c.events (cap.event c) } rfl rfl]
    simp [Process.withQueue]

/-- Every capture on a process with a client returns a non-empty identifier. -/
theorem captureAll_ids (p : Process) (c : client) (hc : p.globalClient = some c)
    (caps : List Capture) :
    (captureAll caps p).1.length = caps.length ∧ ∀ id ∈ (captureAll caps p).1, id ≠ [] := by
  rw [captureAll_some caps p c hc]
  refine ⟨by simp, ?_⟩
  intro id hid
  simp only [List.mem_map] at hid
  obtain ⟨cap, -, rfl⟩ := hid
  exact cap.id_ne_nil

/-- C7. `CaptureException(nil)` returns the empty identifier and leaves the
state as it is, whether or not a client is set; with no client set,
`CaptureMessage` and `CaptureException` return the empty identifier and leave
the state as it is; with a client set, `CaptureMessage` and `CaptureException`
of a non-nil error return a non-empty identifier. -/
theorem capture_noop_cases (m : Moment) (p : Process) :
    CaptureException m none p = ([], p) ∧
    (p.globalClient = none → ∀ (msg : GoString) (err : Option GoString),
      CaptureMessage m msg p = ([], p) ∧ CaptureException m err p = ([], p)) ∧
    (∀ c : client, p.globalClient = some c → ∀ msg : GoString,
      (CaptureMessage m msg p).1 ≠ [] ∧ (CaptureException m (some msg) p).1 ≠ []) := by
  refine ⟨rfl, ?_, ?_⟩
  · intro h msg err
    constructor
    · simp [CaptureMessage, captureEvent, h]
    · cases err <;> simp [CaptureException, captureEvent, h]
  · intro c hc msg
    simp only [CaptureMessage, CaptureException, captureEvent_some _ _ _ _ p c hc]
    exact ⟨generateEventID_ne_nil _, generateEventID_ne_nil _⟩

/-- C6. On a fresh client, with no worker step in between, after any list of
captures the queue holds the events of the first `min n 256` of them, in
order; every capture returns a non-empty identifier; and a capture made when
the queue already holds 256 events returns a non-empty identifier and leaves
the whole state, the queue included, as it is. -/
theorem drop_on_full (p : Process) (c : client) (hf : Fresh p c) (caps : List Capture) :
    (captureAll caps p).2.queue = (caps.take 256).map (Capture.event c) ∧
    (captureAll caps p).2.queue.length = min caps.length 256 ∧
    (captureAll caps p).1.length = caps.length ∧
    (∀ id ∈ (captureAll caps p).1, id ≠ []) ∧
    (∀ (q : Process) (d : client) (cap : Capture), q.globalClient = some d →
      d.events.cap = 256 → d.events.buf.length = 256 →
      (cap.call q).1 ≠ [] ∧ (cap.call q).2 = q) := by
  obtain ⟨hc, hev, -, -, -⟩ := hf
  have hq : (captureAll caps p).2.queue = (caps.take 256).map (Capture.event c) := by
    rw [captureAll_some caps p c hc, hev, foldl_trySend 256 _ [] (by simp)]
    simp [Process.queue, Process.withQueue, List.map_take]
  refine ⟨hq, ?_, (captureAll_ids p c hc caps).1, (captureAll_ids p c hc caps).2, ?_⟩
  · rw [hq]; simp [Nat.min_comm]
  · intro q d cap hd hcap hlen
    rw [Capture.call_some cap q d hd]
    refine ⟨cap.id_ne_nil, ?_⟩
    have : trySend d.events (cap.event d) = d.events := by
      simp [trySend, hcap, hlen]
    rw [this]
    cases q
    simp_all [Process.withQueue]

/-! ## Theorems: the worker, `send` and `Flush` -/

/-- The method `send` touches neither the client nor the worker nor the list
of events passed to it. -/
theorem send_frame (tr : Transport) (c : client) (event : Event) (p : Process) :
    (send tr c event p).globalClient = p.globalClient ∧
    (send tr c event p).worker = p.worker ∧
    (send tr c event p).handed = p.handed := by
  unfold send
  cases tr.jsonMarshal event with
  | none => exact ⟨rfl, rfl, rfl⟩
  | some body =>
    simp only []
    cases NewRequest "POST".toList (c.endpoint ++ "/api/events".toList) body with
    | none => exact ⟨rfl, rfl, rfl⟩
    | some req =>
      simp only []
      cases tr.httpDo p.requests.length
          ((req.headerSet "Content-Type".toList "application/json".toList).headerSet
            "X-OBS-Key".toList c.apiKey) with
      | err msg => exact ⟨rfl, rfl, rfl⟩
      | response status => exact ⟨rfl, rfl, rfl⟩

theorem drop_cons_step {α : Type} (E : List α) (j : Nat) (e : α) (rest : List α)
    (h : E.drop j = e :: rest) :
    j < E.length ∧ E.drop (j + 1) = rest ∧ E.take (j + 1) = E.take j ++ [e] := by
  have hlt : j < E.length := by
    by_contra hge
    rw [List.drop_eq_nil_of_le (by omega)] at h
    cases h
  refine ⟨hlt, ?_, ?_⟩
  · have : E.drop (j + 1) = (E.drop j).drop 1 := by rw [List.drop_drop, Nat.add_comm]
    rw [this, h]; rfl
  · have hget : E[j] = e := by
      have := List.getElem_drop (L := E) (i := j) (j := 0) (h := by simpa using hlt)
      simp only [h] at this
      simpa using this.symm
    rw [List.take_succ, List.getElem?_eq_getElem hlt, hget]
    rfl

theorem workerStep_idle (tr : Transport) (pick : Bool) (s : Process) (d : client)
    (hc : s.globalClient = some d) (hw : s.worker = .exited) : workerStep tr pick s = s := by
  unfold workerStep
  rw [hc]
  simp only [hw]

theorem workerStep_quit (tr : Transport) (pick : Bool) (s : Process) (d : client)
    (hc : s.globalClient = some d) (hw : s.worker = .running) (hq : d.quit = true)
    (hb : d.events.buf = [] ∨ pick = true) :
    workerStep tr pick s = { s with worker := .draining } := by
  unfold workerStep
  rw [hc]
  simp only [hw]
  cases hbuf : d.events.buf with
  | nil => simp [hq]
  | cons e rest =>
    rcases hb with hb | hb
    · rw [hbuf] at hb; cases hb
    · simp [hq, hb]

theorem workerStep_receive (tr : Transport) (pick : Bool) (s : Process) (d : client)
    (e : Event) (rest : List Event) (hc : s.globalClient = some d) (hb : d.events.buf = e :: rest)
    (hw : s.worker = .draining ∨ (s.worker = .running ∧ pick = false)) :
    workerStep tr pick s = send tr d e (s.received d e rest) := by
  unfold workerStep
  rw [hc]
  rcases hw with hw | ⟨hw, hp⟩
  · simp only [hw, hb]
  · simp [hw, hb, hp]

theorem workerStep_return (tr : Transport) (pick : Bool) (s : Process) (d : client)
    (hc : s.globalClient = some d) (hb : d.events.buf = []) (hw : s.worker = .draining) :
    workerStep tr pick s =
      { s with worker := .exited, globalClient := some { d with done := true } } := by
  unfold workerStep
  rw [hc]
  simp only [hw, hb]

/-- One worker step on a queue being emptied: one step less remains. -/
theorem workerStep_emptying (tr : Transport) (pick : Bool) (H E : List Event) (n : Nat)
    (s : Process) (h : Emptying H E n s) : Emptying H E (n - 1) (workerStep tr pick s) := by
  obtain ⟨j, d, hj, hc, hbuf, hquit, hhand, hdone, hex, hn⟩ := h
  have receive : ∀ e rest, d.events.buf = e :: rest → s.worker ≠ .exited →
      Emptying H E (n - 1) (send tr d e (s.received d e rest)) := by
    intro e rest hb hne
    obtain ⟨hlt, hdrop, htake⟩ := drop_cons_step E j e rest (by rw [← hbuf, hb])
    obtain ⟨f1, f2, f3⟩ := send_frame tr d e (s.received d e rest)
    refine ⟨j + 1, { d with events := { d.events with buf := rest } }, hlt, f1, hdrop.symm, hquit,
      ?_, ?_, ?_, ?_⟩
    · rw [f3, htake, ← List.append_assoc, ← hhand]; rfl
    · rw [f2]
      show d.done = decide (s.worker = .exited)
      exact hdone
    · rw [f2]
      intro h
      exact absurd h hne
    · rw [f2]
      show E.length - (j + 1) + s.worker.rank = n - 1
      omega
  cases hw : s.worker with
  | exited =>
    rw [workerStep_idle tr pick s d hc hw]
    refine ⟨j, d, hj, hc, hbuf, hquit, hhand, hdone, hex, ?_⟩
    have hjE := hex hw
    have hr : s.worker.rank = 0 := by rw [hw]; rfl
    omega
  | running =>
    have toDraining : Emptying H E (n - 1) { s with worker := .draining } := by
      refine ⟨j, d, hj, hc, hbuf, hquit, hhand, ?_, ?_, ?_⟩
      · simpa [hw] using hdone
      · intro h; cases h
      · simp only [hw, Phase.rank] at hn ⊢; omega
    cases hb : d.events.buf with
    | nil =>
      rw [workerStep_quit tr pick s d hc hw hquit (Or.inl hb)]
      exact toDraining
    | cons e rest =>
      rcases Bool.eq_false_or_eq_true pick with hp | hp
      · rw [workerStep_quit tr pick s d hc hw hquit (Or.inr hp)]
        exact toDraining
      · rw [workerStep_receive tr pick s d e rest hc hb (Or.inr ⟨hw, hp⟩)]
        exact receive e rest hb (by simp [hw])
  | draining =>
    cases hb : d.events.buf with
    | nil =>
      rw [workerStep_return tr pick s d hc hb hw]
      have hjE : j = E.length := by
        have h0 : E.drop j = [] := by rw [← hbuf, hb]
        have := List.drop_eq_nil_iff.mp h0
        omega
      refine ⟨j, { d with done := true }, hj, rfl, hbuf, hquit, hhand, by simp, fun _ => hjE, ?_⟩
      simp only [hw, Phase.rank] at hn ⊢; omega
    | cons e rest =>
      rw [workerStep_receive tr pick s d e rest hc hb (Or.inl hw)]
      exact receive e rest hb (by simp [hw])

/-- Any number of worker steps on a queue being emptied. -/
theorem runWorker_emptying (tr : Transport) (H E : List Event) (picks : List Bool) :
    ∀ (n : Nat) (s : Process), Emptying H E n s →
      Emptying H E (n - picks.length) (runWorker tr picks s) := by
  induction picks with
  | nil => intro n s h; simpa [runWorker] using h
  | cons pick picks ih =>
    intro n s h
    have h1 := ih (n - 1) (workerStep tr pick s) (workerStep_emptying tr pick H E n s h)
    have e : n - 1 - picks.length = n - (pick :: picks).length := by
      simp only [List.length_cons]; omega
    rw [e] at h1
    exact h1

theorem runWorker_cons (tr : Transport) (pick : Bool) (picks : List Bool) (p : Process) :
    runWorker tr (pick :: picks) p = runWorker tr picks (workerStep tr pick p) := rfl

/-- The wait of `Flush` ends in a state the worker reaches by some steps, and
returns whether `done` is closed there. -/
theorem flushWait_eq_runWorker (tr : Transport) (pace : List (Bool × Int)) :
    ∀ (remaining : Int) (p : Process), ∃ picks : List Bool,
      flushWait tr remaining pace p =
        ((runWorker tr picks p).doneClosed, runWorker tr picks p) := by
  induction pace with
  | nil =>
    intro remaining p
    refine ⟨[], ?_⟩
    unfold flushWait
    cases h : p.doneClosed <;> simp [runWorker, h]
  | cons step more ih =>
    intro remaining p
    obtain ⟨pick, cost⟩ := step
    unfold flushWait
    cases h : p.doneClosed with
    | true => exact ⟨[], by simp [runWorker, h]⟩
    | false =>
      by_cases hcost : cost ≤ remaining
      · obtain ⟨picks, hp⟩ := ih (remaining - cost) (workerStep tr pick p)
        refine ⟨pick :: picks, ?_⟩
        simp only [hcost, if_true, runWorker_cons]
        simpa using hp
      · exact ⟨[], by simp [runWorker, h, hcost]⟩

theorem captureStack_ne_nil (frames : List StackFrame) : captureStack frames ≠ [] := by
  have : ∀ (fs stack : List StackFrame), captureStackFrom stack fs ≠ [] := by
    intro fs
    induction fs with
    | nil => intro stack; simp [captureStackFrom]
    | cons f rest ih =>
      intro stack
      cases rest with
      | nil => simp [captureStackFrom]
      | cons g more =>
        rw [captureStackFrom]
        exact ih _
  exact this frames []

theorem delivers_event (c : client) (cap : Capture) : Delivers c cap (cap.event c) := by
  cases cap with
  | message m msg => exact ⟨rfl, rfl, rfl, rfl, rfl⟩
  | exception m msg => exact ⟨rfl, rfl, rfl, rfl, rfl, captureStack_ne_nil _⟩

/-- The state after a list of captures on a fresh client and `close(c.quit)`
is that of a worker about to empty the queue of their events. -/
theorem emptying_after_captures (p : Process) (c : client) (hf : Fresh p c)
    (caps : List Capture) (hk : caps.length ≤ 256) :
    Emptying p.handed (caps.map (Capture.event c)) (caps.length + 2)
      (captureAll caps p).2.closeQuit := by
  obtain ⟨hc, hev, hquit, hdone, hw⟩ := hf
  rw [captureAll_some caps p c hc, hev, foldl_trySend 256 _ [] (by simp)]
  have htake : ([] ++ caps.map (Capture.event c)).take 256 = caps.map (Capture.event c) := by
    rw [List.nil_append, List.take_of_length_le (by simpa using hk)]
  rw [htake]
  refine ⟨0, { c with events := { buf := caps.map (Capture.event c), cap := 256 }, quit := true },
    Nat.zero_le _, rfl, rfl, rfl, ?_, ?_, ?_, ?_⟩
  · simp [Process.closeQuit, Process.withQueue]
  · simp [Process.closeQuit, Process.withQueue, hw, hdone]
  · simp [Process.closeQuit, Process.withQueue, hw]
  · simp [Process.closeQuit, Process.withQueue, hw, Phase.rank]

theorem Flush_open (tr : Transport) (timeout : Int) (pace : List (Bool × Int)) (p : Process)
    (c : client) (hc : p.globalClient = some c) (hq : c.quit = false) :
    Flush tr timeout pace p = .ok (flushWait tr timeout pace p.closeQuit) := by
  unfold Flush Process.closeQuit
  rw [hc]
  simp [hq]


/-! ## Theorems: the requests passed to the transport -/

/-- The method `send` passes the transport the one request of the event, if it can be built. -/
theorem send_requests (tr : Transport) (c : client) (event : Event) (p : Process) :
    (send tr c event p).requests = p.requests ++ (c.post tr event).toList := by
  unfold send client.post client.request
  cases tr.jsonMarshal event with
  | none => simp
  | some body =>
    simp only [Option.some_bind]
    cases NewRequest "POST".toList (c.endpoint ++ "/api/events".toList) body with
    | none => simp
    | some req =>
      simp only [Option.map_some', Option.toList_some]
      cases tr.httpDo p.requests.length
          ((req.headerSet "Content-Type".toList "application/json".toList).headerSet
            "X-OBS-Key".toList c.apiKey) <;> rfl

theorem client.post_congr (tr : Transport) (c d : client) (h1 : d.endpoint = c.endpoint)
    (h2 : d.apiKey = c.apiKey) : d.post tr = c.post tr := by
  funext e
  unfold client.post client.request
  rw [h1, h2]

/-- The four things a worker step can do. -/
theorem workerStep_cases (tr : Transport) (pick : Bool) (s : Process) (d : client)
    (hc : s.globalClient = some d) :
    workerStep tr pick s = s ∨ workerStep tr pick s = { s with worker := .draining } ∨
    (∃ (e : Event) (rest : List Event),
      workerStep tr pick s = send tr d e (s.received d e rest)) ∨
    workerStep tr pick s =
      { s with worker := .exited, globalClient := some { d with done := true } } := by
  cases hw : s.worker with
  | exited => exact Or.inl (workerStep_idle tr pick s d hc hw)
  | running =>
    cases hq : d.quit with
    | false =>
      cases hb : d.events.buf with
      | nil =>
        left
        unfold workerStep
        rw [hc]
        simp [hw, hb, hq]
      | cons e rest =>
        right; right; left
        refine ⟨e, rest, ?_⟩
        unfold workerStep
        rw [hc]
        simp [hw, hb, hq]
    | true =>
      cases hb : d.events.buf with
      | nil => exact Or.inr (Or.inl (workerStep_quit tr pick s d hc hw hq (Or.inl hb)))
      | cons e rest =>
        rcases Bool.eq_false_or_eq_true pick with hp | hp
        · exact Or.inr (Or.inl (workerStep_quit tr pick s d hc hw hq (Or.inr hp)))
        · exact Or.inr (Or.inr (Or.inl ⟨e, rest,
            workerStep_receive tr pick s d e rest hc hb (Or.inr ⟨hw, hp⟩)⟩))
  | draining =>
    cases hb : d.events.buf with
    | nil => exact Or.inr (Or.inr (Or.inr (workerStep_return tr pick s d hc hb hw)))
    | cons e rest =>
      exact Or.inr (Or.inr (Or.inl ⟨e, rest,
        workerStep_receive tr pick s d e rest hc hb (Or.inl hw)⟩))

/-- A worker step keeps the requests in step with the events passed to `send`. -/
theorem workerStep_posting (tr : Transport) (pick : Bool) (c : client) (H : List Event)
    (R : List Request) (s : Process) (h : Posting tr c H R s) :
    Posting tr c H R (workerStep tr pick s) := by
  obtain ⟨d, hs, hc, he, hk, hh, hr⟩ := h
  rcases workerStep_cases tr pick s d hc with h | h | ⟨e, rest, h⟩ | h
  · rw [h]; exact ⟨d, hs, hc, he, hk, hh, hr⟩
  · rw [h]; exact ⟨d, hs, hc, he, hk, hh, hr⟩
  · rw [h]
    refine ⟨_, hs ++ [e], (send_frame tr d e _).1, he, hk, ?_, ?_⟩
    · rw [(send_frame tr d e _).2.2]
      show s.handed ++ [e] = H ++ (hs ++ [e])
      rw [hh, List.append_assoc]
    · rw [send_requests, client.post_congr tr c d he hk]
      show s.requests ++ (c.post tr e).toList = R ++ List.filterMap (c.post tr) (hs ++ [e])
      rw [hr, List.filterMap_append, List.append_assoc]
      congr 1
  · rw [h]; exact ⟨_, hs, rfl, he, hk, hh, hr⟩

theorem runWorker_posting (tr : Transport) (c : client) (H : List Event) (R : List Request)
    (picks : List Bool) :
    ∀ s : Process, Posting tr c H R s → Posting tr c H R (runWorker tr picks s) := by
  induction picks with
  | nil => intro s h; exact h
  | cons pick picks ih =>
    intro s h
    rw [runWorker_cons]
    exact ih _ (workerStep_posting tr pick c H R s h)

/-- However the worker runs, the requests passed to the transport are those
of the events passed to `send`, in order. -/
theorem runWorker_requests (tr : Transport) (c : client) (picks : List Bool) (s : Process)
    (hc : s.globalClient = some c) (E : List Event)
    (hE : (runWorker tr picks s).handed = s.handed ++ E) :
    (runWorker tr picks s).requests = s.requests ++ E.filterMap (c.post tr) := by
  have h0 : Posting tr c s.handed s.requests s := ⟨c, [], hc, rfl, rfl, by simp, by simp⟩
  obtain ⟨d, hs, -, -, -, hh, hr⟩ := runWorker_posting tr c s.handed s.requests picks s h0
  rw [hE] at hh
  rw [hr, List.append_cancel_left hh]

/-- The state after captures on a fresh client and `close(c.quit)`. -/
theorem closeQuit_after_captures (p : Process) (c : client) (hc : p.globalClient = some c)
    (caps : List Capture) :
    (captureAll caps p).2.closeQuit.globalClient =
        some { c with events := (caps.map (Capture.event c)).foldl trySend c.events,
                      quit := true } ∧
    (captureAll caps p).2.closeQuit.handed = p.handed ∧
    (captureAll caps p).2.closeQuit.requests = p.requests := by
  rw [captureAll_some caps p c hc]
  exact ⟨rfl, rfl, rfl⟩

/-- A client as `Init` leaves it. -/
theorem Init_fresh (hostname : GoString) (options : Options) (p : Process)
    (h : (parseDSN options.DSN).err = none) :
    ∃ c : client, Fresh (Init hostname options p) c ∧
      c.endpoint = (parseDSN options.DSN).endpoint ∧ c.apiKey = (parseDSN options.DSN).apiKey ∧
      c.env = options.Environment := by
  unfold Init
  simp only [h]
  exact ⟨_, ⟨rfl, rfl, rfl, rfl, rfl⟩, rfl, rfl, rfl⟩

/-- The request `send` builds carries the encoding as its body. -/
theorem client.request_body (c : client) (body : GoString) (req : Request)
    (h : c.request body = some req) : req.Body = body ∧ req.Method = "POST".toList := by
  unfold client.request NewRequest at h
  cases hP : Parse (c.endpoint ++ "/api/events".toList) with
  | error e => rw [hP] at h; simp at h
  | ok u =>
    rw [hP] at h
    simp only [Option.map_some', Option.some.injEq] at h
    rw [← h]
    exact ⟨rfl, rfl⟩

/-- When `send` can encode every captured event and build its request, the
requests of the captured events are one per capture, in capture order. -/
theorem posts_of_all (tr : Transport) (c : client) (caps : List Capture)
    (h : ∀ cap ∈ caps, (c.post tr (cap.event c)).isSome = true) :
    List.Forall₂ (Posts tr c) caps ((caps.map (Capture.event c)).filterMap (c.post tr)) := by
  induction caps with
  | nil => exact List.Forall₂.nil
  | cons cap caps ih =>
    have h1 := h cap (List.mem_cons_self _ _)
    have ih' := ih fun x hx => h x (List.mem_cons_of_mem _ hx)
    obtain ⟨req, hreq⟩ := Option.isSome_iff_exists.mp h1
    rw [List.map_cons, List.filterMap_cons_some hreq]
    refine List.Forall₂.cons ?_ ih'
    unfold client.post at hreq
    cases hm : tr.jsonMarshal (cap.event c) with
    | none => rw [hm] at hreq; simp at hreq
    | some body =>
      rw [hm, Option.some_bind] at hreq
      exact ⟨body, hm, hreq, (client.request_body c body req hreq).1,
        (client.request_body c body req hreq).2⟩

/-- C5, as amended. On a fresh client for which `send` can encode each
captured event and build its request (as it can for every endpoint
`scheme://host[:port]` with a valid lower-case scheme, host and port), for
every list of at most 256 captures: each capture returns a non-empty
identifier; once `quit` is closed, however the worker is scheduled, the events
it has passed to `send` are the first so many of the captured events, in
capture order, the rest being still queued, and `done` is closed only when the
queue is empty; after `k + 2` steps `done` is closed, exactly the `k` events
have been passed to `send`, in capture order, and the transport has been
passed exactly `k` requests, the `i`-th being the request of the `i`-th
captured event; each event carries the level `info` or `error`, the message,
the platform `go`, the environment and server name of the client and, on the
exception path, a non-empty stack trace; and `Flush` returns, in a state the
worker reaches, `true` exactly when `done` is closed there. -/
theorem capture_then_drain (tr : Transport) (p : Process) (c : client) (hf : Fresh p c)
    (caps : List Capture) (hk : caps.length ≤ 256)
    (hpost : ∀ cap ∈ caps, (c.post tr (cap.event c)).isSome = true) :
    (captureAll caps p).1.length = caps.length ∧
    (∀ id ∈ (captureAll caps p).1, id ≠ []) ∧
    List.Forall₂ (Delivers c) caps (caps.map (Capture.event c)) ∧
    (∀ picks : List Bool, ∃ j : Nat, j ≤ caps.length ∧
      (runWorker tr picks (captureAll caps p).2.closeQuit).handed =
        p.handed ++ (caps.map (Capture.event c)).take j ∧
      (runWorker tr picks (captureAll caps p).2.closeQuit).queue =
        (caps.map (Capture.event c)).drop j ∧
      ((runWorker tr picks (captureAll caps p).2.closeQuit).doneClosed = true →
        j = caps.length ∧ (runWorker tr picks (captureAll caps p).2.closeQuit).queue = [])) ∧
    (∀ picks : List Bool, caps.length + 2 ≤ picks.length →
      (runWorker tr picks (captureAll caps p).2.closeQuit).doneClosed = true ∧
      (runWorker tr picks (captureAll caps p).2.closeQuit).handed =
        p.handed ++ caps.map (Capture.event c) ∧
      (runWorker tr picks (captureAll caps p).2.closeQuit).queue = [] ∧
      ∃ reqs : List Request,
        (runWorker tr picks (captureAll caps p).2.closeQuit).requests = p.requests ++ reqs ∧
        reqs.length = caps.length ∧ List.Forall₂ (Posts tr c) caps reqs) ∧
    (∀ (timeout : Int) (pace : List (Bool × Int)), ∃ picks : List Bool,
      Flush tr timeout pace (captureAll caps p).2 =
        .ok ((runWorker tr picks (captureAll caps p).2.closeQuit).doneClosed,
          runWorker tr picks (captureAll caps p).2.closeQuit)) := by
  have hids := captureAll_ids p c hf.1 caps
  have hE := emptying_after_captures p c hf caps hk
  have hsafe : ∀ picks : List Bool, ∃ j : Nat, j ≤ caps.length ∧
      (runWorker tr picks (captureAll caps p).2.closeQuit).handed =
        p.handed ++ (caps.map (Capture.event c)).take j ∧
      (runWorker tr picks (captureAll caps p).2.closeQuit).queue =
        (caps.map (Capture.event c)).drop j ∧
      ((runWorker tr picks (captureAll caps p).2.closeQuit).doneClosed = true →
        j = caps.length ∧ (runWorker tr picks (captureAll caps p).2.closeQuit).queue = []) ∧
      (caps.length + 2 ≤ picks.length →
        (runWorker tr picks (captureAll caps p).2.closeQuit).doneClosed = true) := by
    intro picks
    obtain ⟨j, d, hj, hc, hbuf, hquit, hhand, hdone, hex, hn⟩ :=
      runWorker_emptying tr _ _ picks _ _ hE
    simp only [List.length_map] at hj hex hn
    have hq : (runWorker tr picks (captureAll caps p).2.closeQuit).queue =
        (caps.map (Capture.event c)).drop j := by
      simp [Process.queue, hc, hbuf]
    refine ⟨j, hj, hhand, hq, ?_, ?_⟩
    · intro hd
      have hd' : d.done = true := by simpa [Process.doneClosed, hc] using hd
      rw [hdone] at hd'
      have hjE := hex (by simpa using hd')
      refine ⟨hjE, ?_⟩
      rw [hq, hjE]
      simp
    · intro hlen
      have h0 : caps.length - j +
          (runWorker tr picks (captureAll caps p).2.closeQuit).worker.rank = 0 := by omega
      have hr : (runWorker tr picks (captureAll caps p).2.closeQuit).worker = .exited := by
        cases hw : (runWorker tr picks (captureAll caps p).2.closeQuit).worker <;>
          simp [hw, Phase.rank] at h0 ⊢
      simp [Process.doneClosed, hc, hdone, hr]
  refine ⟨hids.1, hids.2, ?_, ?_, ?_, ?_⟩
  · rw [List.forall₂_map_right_iff]
    exact List.forall₂_same.mpr fun cap _ => delivers_event c cap
  · intro picks
    obtain ⟨j, h1, h2, h3, h4, -⟩ := hsafe picks
    exact ⟨j, h1, h2, h3, h4⟩
  · intro picks hlen
    obtain ⟨j, h1, h2, h3, h4, h5⟩ := hsafe picks
    have hd := h5 hlen
    obtain ⟨hjE, hq⟩ := h4 hd
    have hall : (runWorker tr picks (captureAll caps p).2.closeQuit).handed =
        p.handed ++ caps.map (Capture.event c) := by
      rw [h2, hjE]
      simp
    have hposts := posts_of_all tr c caps hpost
    refine ⟨hd, hall, hq, _, ?_, hposts.length_eq.symm, hposts⟩
    obtain ⟨g1, g2, g3⟩ := closeQuit_after_captures p c hf.1 caps
    have hreq := runWorker_requests tr _ picks _ g1 (caps.map (Capture.event c))
      (by rw [g2]; exact hall)
    rw [hreq, g3]
    congr 2
  · intro timeout pace
    obtain ⟨hc, hev, hquit, hdone, hw⟩ := hf
    have hc2 : (captureAll caps p).2.globalClient =
        some { c with events := (caps.map (Capture.event c)).foldl trySend c.events } := by
      rw [captureAll_some caps p c hc]; rfl
    rw [Flush_open tr timeout pace _ _ hc2 hquit]
    obtain ⟨picks, hp⟩ := flushWait_eq_runWorker tr pace timeout (captureAll caps p).2.closeQuit
    exact ⟨picks, by rw [hp]⟩

theorem testProcess_fresh : Fresh testProcess testClient := by
  refine ⟨by decide, rfl, rfl, rfl, by decide⟩

/-- The client `Init` builds from a connection string without scheme is fresh. -/
theorem schemelessProcess_fresh : Fresh schemelessProcess schemelessClient := by
  refine ⟨by decide, rfl, rfl, rfl, by decide⟩

/-- C5, witness of the amended statement: the two captures of the package's
tests on the client of the tests, drained in four worker steps; the transport
is passed two requests. -/
theorem capture_then_drain_witness :
    (runWorker (testTransport (.response 201)) [false, false, true, false]
      (captureAll testCaptures testProcess).2.closeQuit).doneClosed = true ∧
    (runWorker (testTransport (.response 201)) [false, false, true, false]
      (captureAll testCaptures testProcess).2.closeQuit).handed =
        testProcess.handed ++ testCaptures.map (Capture.event testClient) ∧
    (runWorker (testTransport (.response 201)) [false, false, true, false]
      (captureAll testCaptures testProcess).2.closeQuit).queue = [] ∧
    ∃ reqs : List Request,
      (runWorker (testTransport (.response 201)) [false, false, true, false]
        (captureAll testCaptures testProcess).2.closeQuit).requests =
          testProcess.requests ++ reqs ∧
      reqs.length = testCaptures.length ∧
      List.Forall₂ (Posts (testTransport (.response 201)) testClient) testCaptures reqs :=
  (capture_then_drain (testTransport (.response 201)) testProcess testClient testProcess_fresh
    testCaptures (by decide) (by decide)).2.2.2.2.1 [false, false, true, false] (by decide)

/-- C5, counterexample: `Init` accepts the connection string `//key@host`
and leaves a fresh client; the two captures of the package's tests return
non-empty identifiers, the worker drains the queue and closes `done`, both
events are passed to `send`, and the transport is passed no request at all,
although the encoder succeeds and the transport would answer 201. -/
theorem capture_then_drain_schemeless :
    (parseDSN schemelessOptions.DSN).err = none ∧
    schemelessProcess.globalClient = some schemelessClient ∧
    (captureAll testCaptures schemelessProcess).1.length = 2 ∧
    [] ∉ (captureAll testCaptures schemelessProcess).1 ∧
    (runWorker (testTransport (.response 201)) [false, false, true, false]
      (captureAll testCaptures schemelessProcess).2.closeQuit).doneClosed = true ∧
    (runWorker (testTransport (.response 201)) [false, false, true, false]
      (captureAll testCaptures schemelessProcess).2.closeQuit).handed.length = 2 ∧
    (runWorker (testTransport (.response 201)) [false, false, true, false]
      (captureAll testCaptures schemelessProcess).2.closeQuit).queue = [] ∧
    (runWorker (testTransport (.response 201)) [false, false, true, false]
      (captureAll testCaptures schemelessProcess).2.closeQuit).requests = [] := by
  decide

/-- C6, witness: the two captures of the package's tests on the client of the tests. -/
theorem drop_on_full_witness :
    (captureAll testCaptures testProcess).2.queue =
      (testCaptures.take 256).map (Capture.event testClient) :=
  (drop_on_full testProcess testClient testProcess_fresh testCaptures).1

/-- C7, witness: a message captured with no client set, and one captured on
the client of the tests. -/
theorem capture_noop_cases_witness :
    (CaptureMessage testMoment "deployment started".toList {} = ([], {}) ∧
      CaptureException testMoment (some "something broke".toList) {} = ([], {})) ∧
    ((CaptureMessage testMoment "deployment started".toList testProcess).1 ≠ [] ∧
      (CaptureException testMoment (some "deployment started".toList) testProcess).1 ≠ []) :=
  ⟨(capture_noop_cases testMoment {}).2.1 rfl "deployment started".toList
      (some "something broke".toList),
    (capture_noop_cases testMoment testProcess).2.2 testClient (by decide)
      "deployment started".toList⟩

/-- A worker step keeps the client in place and a closed `quit` closed. -/
theorem workerStep_quit_stays (tr : Transport) (pick : Bool) (s : Process)
    (h : ∃ d : client, s.globalClient = some d ∧ d.quit = true) :
    ∃ d : client, (workerStep tr pick s).globalClient = some d ∧ d.quit = true := by
  obtain ⟨d, hc, hq⟩ := h
  cases hw : s.worker with
  | exited => rw [workerStep_idle tr pick s d hc hw]; exact ⟨d, hc, hq⟩
  | running =>
    cases hb : d.events.buf with
    | nil => rw [workerStep_quit tr pick s d hc hw hq (Or.inl hb)]; exact ⟨d, hc, hq⟩
    | cons e rest =>
      rcases Bool.eq_false_or_eq_true pick with hp | hp
      · rw [workerStep_quit tr pick s d hc hw hq (Or.inr hp)]; exact ⟨d, hc, hq⟩
      · rw [workerStep_receive tr pick s d e rest hc hb (Or.inr ⟨hw, hp⟩)]
        exact ⟨_, (send_frame tr d e _).1, hq⟩
  | draining =>
    cases hb : d.events.buf with
    | nil => rw [workerStep_return tr pick s d hc hb hw]; exact ⟨_, rfl, hq⟩
    | cons e rest =>
      rw [workerStep_receive tr pick s d e rest hc hb (Or.inl hw)]
      exact ⟨_, (send_frame tr d e _).1, hq⟩

theorem runWorker_quit_stays (tr : Transport) (picks : List Bool) :
    ∀ s : Process, (∃ d : client, s.globalClient = some d ∧ d.quit = true) →
      ∃ d : client, (runWorker tr picks s).globalClient = some d ∧ d.quit = true := by
  induction picks with
  | nil => intro s h; exact h
  | cons pick picks ih =>
    intro s h
    rw [runWorker_cons]
    exact ih _ (workerStep_quit_stays tr pick s h)

/-- C8, as amended. On a client whose signal `quit` is still open, `Flush`
returns a boolean, whatever the timeout and the pace of the worker, and a
second `Flush` on the same client returns nothing: its `close(c.quit)` on the
closed channel panics, whatever the timeout. -/
theorem flush_twice_panics (tr : Transport) (p : Process) (c : client)
    (hc : p.globalClient = some c) (hq : c.quit = false)
    (timeout1 timeout2 : Int) (pace1 pace2 : List (Bool × Int)) :
    ∃ (b : Bool) (q : Process), Flush tr timeout1 pace1 p = .ok (b, q) ∧
      Flush tr timeout2 pace2 q = .error .closeOfClosedChannel := by
  rw [Flush_open tr timeout1 pace1 p c hc hq]
  obtain ⟨picks, hp⟩ := flushWait_eq_runWorker tr pace1 timeout1 p.closeQuit
  rw [hp]
  refine ⟨_, _, rfl, ?_⟩
  have h0 : ∃ d : client, p.closeQuit.globalClient = some d ∧ d.quit = true := by
    unfold Process.closeQuit
    rw [hc]
    exact ⟨_, rfl, rfl⟩
  obtain ⟨d, hd, hdq⟩ := runWorker_quit_stays tr picks _ h0
  unfold Flush
  rw [hd]
  simp [hdq]

/-- C8, witness of the amended statement: the client of the tests, flushed
twice with a timeout of five seconds. -/
theorem flush_twice_panics_witness :
    ∃ (b : Bool) (q : Process),
      Flush (testTransport (.response 201)) 5000000000 [(false, 1000)] testProcess = .ok (b, q) ∧
      Flush (testTransport (.response 201)) 5000000000 [(false, 1000)] q =
        .error .closeOfClosedChannel :=
  flush_twice_panics (testTransport (.response 201)) testProcess testClient (by decide) rfl
    5000000000 5000000000 [(false, 1000)] [(false, 1000)]

/-- C8, counterexample: on the client of the tests the first `Flush` returns
`true` and the second `Flush` panics instead of returning a boolean. -/
theorem flush_second_call_panics :
    (Flush (testTransport (.response 201)) 5000000000 [(false, 1000), (false, 1000)]
      testProcess).map Prod.fst = .ok true ∧
    ((Flush (testTransport (.response 201)) 5000000000 [(false, 1000), (false, 1000)]
      testProcess).bind fun r =>
        (Flush (testTransport (.response 201)) 5000000000 [] r.2).map Prod.fst) =
      .error .closeOfClosedChannel := by
  constructor <;> rfl

/-- C9, as amended. The method `send` makes at most one transport call and
never touches the client, so never its queue, nor the worker: when encoding or
building the request fails it does nothing at all; otherwise it passes the
one request to the transport, once, and writes one line to the diagnostic
stream when the transport returns an error, and nothing when the transport
returns a response, whatever its status. -/
theorem send_logs_transport_errors_only (tr : Transport) (c : client) (event : Event)
    (p : Process) :
    (send tr c event p).globalClient = p.globalClient ∧
    (send tr c event p).worker = p.worker ∧
    (send tr c event p).requests.length ≤ p.requests.length + 1 ∧
    (tr.jsonMarshal event = none → send tr c event p = p) ∧
    (∀ body : GoString, tr.jsonMarshal event = some body → c.request body = none →
      send tr c event p = p) ∧
    (∀ (body : GoString) (req : Request), tr.jsonMarshal event = some body →
      c.request body = some req →
      (send tr c event p).requests = p.requests ++ [req] ∧
      (∀ msg : GoString, tr.httpDo p.requests.length req = .err msg →
        (send tr c event p).stderr = p.stderr ++ [.failedToSend msg]) ∧
      (∀ status : Nat, tr.httpDo p.requests.length req = .response status →
        (send tr c event p).stderr = p.stderr)) := by
  refine ⟨(send_frame tr c event p).1, (send_frame tr c event p).2.1, ?_, ?_, ?_, ?_⟩
  · unfold send
    cases tr.jsonMarshal event with
    | none => simp
    | some body =>
      simp only []
      cases NewRequest "POST".toList (c.endpoint ++ "/api/events".toList) body with
      | none => simp
      | some req =>
        simp only []
        cases tr.httpDo p.requests.length
            ((req.headerSet "Content-Type".toList "application/json".toList).headerSet
              "X-OBS-Key".toList c.apiKey) <;> simp
  · intro h
    unfold send
    rw [h]
  · intro body hb hr
    unfold client.request at hr
    unfold send
    rw [hb]
    simp only []
    cases hn : NewRequest "POST".toList (c.endpoint ++ "/api/events".toList) body with
    | none => rfl
    | some req => rw [hn] at hr; simp at hr
  · intro body req hb hr
    unfold client.request at hr
    unfold send
    rw [hb]
    simp only []
    cases hn : NewRequest "POST".toList (c.endpoint ++ "/api/events".toList) body with
    | none => rw [hn] at hr; simp at hr
    | some req0 =>
      rw [hn] at hr
      simp only [Option.map_some', Option.some.injEq] at hr
      simp only [hr]
      refine ⟨?_, ?_, ?_⟩
      · cases tr.httpDo p.requests.length req <;> rfl
      · intro msg hm
        rw [hm]
      · intro status hs
        rw [hs]

/-- C9, witness of the amended statement: on the client of the tests a
transport error is logged and a response with status 500 is not. -/
theorem send_logs_transport_errors_only_witness :
    (send (testTransport (.err "connection refused".toList)) testClient testEvent {}).stderr =
        [.failedToSend "connection refused".toList] ∧
    (send (testTransport (.response 500)) testClient testEvent {}).stderr = [] :=
  ⟨((send_logs_transport_errors_only (testTransport (.err "connection refused".toList))
      testClient testEvent {}).2.2.2.2.2 "deployment started".toList testRequest rfl
        (by decide)).2.1 "connection refused".toList rfl,
    ((send_logs_transport_errors_only (testTransport (.response 500))
      testClient testEvent {}).2.2.2.2.2 "deployment started".toList testRequest rfl
        (by decide)).2.2 500 rfl⟩

/-- C9, counterexample: the transport answers with status 500, a response
that is not 2xx; `send` makes its one transport call and writes nothing to the
diagnostic stream. -/
theorem send_non2xx_not_logged :
    (testTransport (.response 500)).httpDo 0 testRequest = .response 500 ∧
    (send (testTransport (.response 500)) testClient testEvent {}).requests = [testRequest] ∧
    (send (testTransport (.response 500)) testClient testEvent {}).stderr = [] := by
  refine ⟨rfl, by decide, by decide⟩

/-! ## Theorems: `parseDSN` -/

theorem indexByte_eq_none (c : Char) (s : GoString) (h : c ∉ s) : indexByte c s = none := by
  induction s with
  | nil => rfl
  | cons x xs ih =>
    simp only [List.mem_cons, not_or] at h
    simp [indexByte, Ne.symm h.1, ih h.2]

theorem cut_not_mem (c : Char) (s : GoString) (h : c ∉ s) : cut s c = (s, [], false) := by
  unfold cut
  rw [indexByte_eq_none c s h]

theorem lastIndexByte_eq_none (c : Char) (s : GoString) (h : c ∉ s) :
    lastIndexByte c s = none := by
  induction s with
  | nil => rfl
  | cons x xs ih =>
    simp only [List.mem_cons, not_or] at h
    simp [lastIndexByte, Ne.symm h.1, ih h.2]

theorem lastIndexByte_append (c : Char) (a b : GoString) (h : c ∉ b) :
    lastIndexByte c (a ++ c :: b) = some a.length := by
  induction a with
  | nil => simp [lastIndexByte, lastIndexByte_eq_none c b h]
  | cons x xs ih => simp [lastIndexByte, ih]

theorem hasSuffixByte_not_mem (c : Char) (s : GoString) (h : c ∉ s) :
    hasSuffixByte s c = false := by
  unfold hasSuffixByte
  simp only [decide_eq_false_iff_not]
  intro hl
  exact h (List.mem_of_getLast?_eq_some hl)

theorem isPrefixOf_not_mem (c : Char) (s : GoString) (h : c ∉ s) :
    [c].isPrefixOf s = false := by
  cases s with
  | nil => rfl
  | cons x xs =>
    simp only [List.mem_cons, not_or] at h
    simp [List.isPrefixOf, h.1]

/-- A string without `%` whose bytes need no escaping in a host passes the
first loop of `unescape`. -/
theorem unescapeCheck_plain (mode : Encoding) (s : GoString)
    (h : ∀ x ∈ s, x ≠ '%' ∧ shouldEscape x .encodeHost = false) :
    unescapeCheck mode s = none := by
  induction s with
  | nil => rfl
  | cons x xs ih =>
    have hx := h x (List.mem_cons_self _ _)
    have ih' := ih fun y hy => h y (List.mem_cons_of_mem _ hy)
    unfold unescapeCheck
    simp only [hx.1, if_false, hx.2, ih']
    simp

/-- A string without `%` passes the first loop of `unescape` outside a host. -/
theorem unescapeCheck_plain_user (s : GoString) (h : ∀ x ∈ s, x ≠ '%') :
    unescapeCheck .encodeUserPassword s = none := by
  induction s with
  | nil => rfl
  | cons x xs ih =>
    have hx := h x (List.mem_cons_self _ _)
    have ih' := ih fun y hy => h y (List.mem_cons_of_mem _ hy)
    unfold unescapeCheck
    simp only [hx, if_false, ih']
    simp

theorem unescape_of_check (mode : Encoding) (s : GoString) (hm : mode ≠ .encodeQueryComponent)
    (h : ∀ x ∈ s, x ≠ '%') (hc : unescapeCheck mode s = none) : unescape s mode = .ok s := by
  unfold unescape
  rw [hc]
  have hn : s.count '%' = 0 := List.count_eq_zero_of_not_mem fun hmem => h _ hmem rfl
  simp [hn, hm]

theorem unescape_nil (mode : Encoding) : unescape [] mode = .ok [] := by
  unfold unescape
  simp [unescapeCheck]

/-- Facts on the characters of the classes of a valid connection string. -/
theorem lowerLetters_facts :
    ∀ x ∈ lowerLetters, ('a' ≤ x ∧ x ≤ 'z') ∧ x ≠ '*' ∧ x ∈ schemeChars := by
  decide

theorem schemeChars_facts :
    ∀ x ∈ schemeChars, ((('a' ≤ x ∧ x ≤ 'z') ∨ ('A' ≤ x ∧ x ≤ 'Z')) ∨
        (('0' ≤ x ∧ x ≤ '9') ∨ x = '+' ∨ x = '-' ∨ x = '.')) ∧ x.toLower = x ∧
      x ≠ '#' ∧ x ≠ ':' ∧ ¬ (x.toNat < ' '.toNat ∨ x.toNat = 0x7f) := by
  decide

theorem keyChars_facts :
    ∀ x ∈ keyChars, x ≠ '%' ∧ x ≠ ':' ∧ x ≠ '/' ∧ x ≠ '?' ∧ x ≠ '#' ∧
      ¬ (x.toNat < ' '.toNat ∨ x.toNat = 0x7f) ∧
      ((('A' ≤ x && x ≤ 'Z') || ('a' ≤ x && x ≤ 'z') || ('0' ≤ x && x ≤ '9') ||
        x ∈ ['-', '.', '_', ':', '~', '!', '$', '&', '\'', '(', ')', '*', '+', ',', ';', '=',
          '%', '@']) = true) := by
  decide

theorem hostChars_facts :
    ∀ x ∈ hostChars, x ≠ '%' ∧ x ≠ ':' ∧ x ≠ '/' ∧ x ≠ '?' ∧ x ≠ '#' ∧ x ≠ '@' ∧ x ≠ '[' ∧
      ¬ (x.toNat < ' '.toNat ∨ x.toNat = 0x7f) ∧ shouldEscape x .encodeHost = false := by
  decide

theorem digitChars_facts :
    ∀ x ∈ digitChars, x ≠ '%' ∧ x ≠ ':' ∧ x ≠ '/' ∧ x ≠ '?' ∧ x ≠ '#' ∧ x ≠ '@' ∧ x ≠ '[' ∧
      ¬ (x.toNat < ' '.toNat ∨ x.toNat = 0x7f) ∧ shouldEscape x .encodeHost = false ∧
      (('0' ≤ x && x ≤ '9') = true) := by
  decide

/-- The loop of `getScheme` past the first byte runs over the scheme to its colon. -/
theorem getSchemeFrom_scheme (rawURL tail : GoString) (suf : GoString) :
    ∀ i : Nat, i ≠ 0 → (∀ x ∈ suf, x ∈ schemeChars) →
      getSchemeFrom rawURL i (suf ++ ':' :: tail) =
        .ok (rawURL.take (i + suf.length), rawURL.drop (i + suf.length + 1)) := by
  induction suf with
  | nil =>
    intro i hi _
    simp [getSchemeFrom, hi]
  | cons x xs ih =>
    intro i hi h
    have hx := (schemeChars_facts x (h x (List.mem_cons_self _ _))).1
    have ih' := ih (i + 1) (by omega) fun y hy => h y (List.mem_cons_of_mem _ hy)
    have e1 : i + (x :: xs).length = i + 1 + xs.length := by simp; omega
    rw [e1, ← ih']
    rw [List.cons_append, getSchemeFrom]
    rcases hx with hx | hx
    · simp only [hx, if_true]
    · by_cases hl : ('a' ≤ x ∧ x ≤ 'z') ∨ ('A' ≤ x ∧ x ≤ 'Z')
      · simp only [hl, if_true]
      · simp only [hl, if_false, hx, if_true, hi]

theorem getScheme_valid (scheme tail : GoString) (hs : validScheme scheme = true) :
    getScheme (scheme ++ ':' :: tail) = .ok (scheme, tail) := by
  cases scheme with
  | nil => simp [validScheme] at hs
  | cons c rest =>
    simp only [validScheme, Bool.and_eq_true, List.all_eq_true] at hs
    have hc := (lowerLetters_facts c (by simpa using hs.1)).1
    have hrest : ∀ x ∈ rest, x ∈ schemeChars := fun x hx => by simpa using hs.2 x hx
    unfold getScheme
    rw [List.cons_append, getSchemeFrom]
    simp only [hc, and_self, true_or, if_true]
    rw [getSchemeFrom_scheme _ tail rest 1 (by omega) hrest]
    have e1 : 0 + 1 + rest.length = (c :: rest).length := by simp; omega
    have e2 : 0 + 1 + rest.length + 1 = (c :: rest).length + 1 := by simp; omega
    rw [e1, ← List.cons_append, List.take_left]
    have : (c :: rest ++ ':' :: tail).drop ((c :: rest).length + 1) = tail := by
      rw [← List.drop_drop, List.drop_left]
      rfl
    rw [this]

theorem mem_hostChars_of_validHost (host : GoString) (h : validHost host = true) :
    ∀ x ∈ host, x ∈ hostChars := by
  simp only [validHost, List.all_eq_true] at h
  intro x hx
  simpa using h x hx

theorem validPort_cases (port : GoString) (h : validPort port = true) :
    port = [] ∨ ∃ ds : GoString, port = ':' :: ds ∧ ∀ x ∈ ds, x ∈ digitChars := by
  cases port with
  | nil => exact Or.inl rfl
  | cons c ds =>
    simp only [validPort, Bool.and_eq_true, List.all_eq_true, decide_eq_true_eq] at h
    refine Or.inr ⟨ds, by rw [h.1], fun x hx => by simpa using h.2 x hx⟩

/-- Facts on every character of `host ++ port`. -/
theorem hostPort_facts (host port : GoString) (hh : validHost host = true)
    (hp : validPort port = true) :
    ∀ x ∈ host ++ port, x ≠ '%' ∧ x ≠ '/' ∧ x ≠ '?' ∧ x ≠ '#' ∧ x ≠ '@' ∧ x ≠ '[' ∧
      ¬ (x.toNat < ' '.toNat ∨ x.toNat = 0x7f) ∧ shouldEscape x .encodeHost = false := by
  intro x hx
  rw [List.mem_append] at hx
  rcases hx with hx | hx
  · obtain ⟨h1, -, h3, h4, h5, h6, h7, h8, h9⟩ :=
      hostChars_facts x (mem_hostChars_of_validHost host hh x hx)
    exact ⟨h1, h3, h4, h5, h6, h7, h8, h9⟩
  · rcases validPort_cases port hp with rfl | ⟨ds, rfl, hds⟩
    · cases hx
    · rw [List.mem_cons] at hx
      rcases hx with rfl | hx
      · decide
      · obtain ⟨h1, -, h3, h4, h5, h6, h7, h8, h9, -⟩ := digitChars_facts x (hds x hx)
        exact ⟨h1, h3, h4, h5, h6, h7, h8, h9⟩

theorem parseHost_valid (host port : GoString) (hh : validHost host = true)
    (hp : validPort port = true) : parseHost (host ++ port) = .ok (host ++ port) := by
  have hall := hostPort_facts host port hh hp
  have hun : unescape (host ++ port) .encodeHost = .ok (host ++ port) :=
    unescape_of_check _ _ (by decide) (fun x hx => (hall x hx).1)
      (unescapeCheck_plain _ _ fun x hx => ⟨(hall x hx).1, (hall x hx).2.2.2.2.2.2.2⟩)
  have hbr : ['['].isPrefixOf (host ++ port) = false :=
    isPrefixOf_not_mem '[' _ fun hx => (hall _ hx).2.2.2.2.2.1 rfl
  have hcolon : ':' ∉ host := fun hx =>
    (hostChars_facts _ (mem_hostChars_of_validHost host hh _ hx)).2.1 rfl
  unfold parseHost
  rw [hbr]
  simp only [Bool.false_eq_true, if_false]
  rcases validPort_cases port hp with rfl | ⟨ds, rfl, hds⟩
  · rw [List.append_nil] at hun ⊢
    rw [lastIndexByte_eq_none ':' host hcolon]
    exact hun
  · have hds' : ':' ∉ ds := fun hx => (digitChars_facts _ (hds _ hx)).2.1 rfl
    rw [lastIndexByte_append ':' host ds hds']
    simp only [List.drop_left]
    have hv : validOptionalPort (':' :: ds) = true := by
      simp only [validOptionalPort, decide_True, Bool.true_and, List.all_eq_true]
      intro x hx
      exact (digitChars_facts x (hds x hx)).2.2.2.2.2.2.2.2.2
    rw [hv]
    simpa using hun

theorem parseAuthority_key (key host port : GoString) (hk : validKey key = true)
    (hh : validHost host = true) (hp : validPort port = true) :
    parseAuthority (key ++ '@' :: (host ++ port)) =
      .ok (some ⟨key, [], false⟩, host ++ port) := by
  have hall := hostPort_facts host port hh hp
  simp only [validKey, Bool.and_eq_true, List.all_eq_true] at hk
  have hkey : ∀ x ∈ key, x ∈ keyChars := fun x hx => by simpa using hk.2 x hx
  have hat : '@' ∉ host ++ port := fun hx => (hall _ hx).2.2.2.2.1 rfl
  unfold parseAuthority
  rw [lastIndexByte_append '@' key _ hat]
  simp only []
  have hd : (key ++ '@' :: (host ++ port)).drop (key.length + 1) = host ++ port := by
    rw [← List.drop_drop, List.drop_left]; rfl
  rw [hd, List.take_left, parseHost_valid host port hh hp]
  have hv : validUserinfo key = true := by
    simp only [validUserinfo, List.all_eq_true]
    intro x hx
    exact (keyChars_facts x (hkey x hx)).2.2.2.2.2.2
  have hu : unescape key .encodeUserPassword = .ok key :=
    unescape_of_check _ _ (by decide) (fun x hx => (keyChars_facts x (hkey x hx)).1)
      (unescapeCheck_plain_user _ fun x hx => (keyChars_facts x (hkey x hx)).1)
  have hc' : ':' ∉ key := fun hx => (keyChars_facts _ (hkey _ hx)).2.1 rfl
  simp [hv, hc', hu, bind, Except.bind, pure, Except.pure]

theorem parseAuthority_no_key (host port : GoString)
    (hh : validHost host = true) (hp : validPort port = true) :
    parseAuthority (host ++ port) = .ok (none, host ++ port) := by
  have hall := hostPort_facts host port hh hp
  have hat : '@' ∉ host ++ port := fun hx => (hall _ hx).2.2.2.2.1 rfl
  unfold parseAuthority
  rw [lastIndexByte_eq_none '@' _ hat]
  simp [parseHost_valid host port hh hp, bind, Except.bind, pure, Except.pure]

/-- The URL `Parse` returns for `scheme://authority` when the scheme is a
valid lower-case one and the authority, free of `/`, `?`, `#` and control
bytes, parses. -/
theorem Parse_scheme_authority (scheme authority host : GoString) (user : Option Userinfo)
    (hs : validScheme scheme = true)
    (ha : ∀ x ∈ authority, x ≠ '/' ∧ x ≠ '?' ∧ x ≠ '#' ∧
      ¬ (x.toNat < ' '.toNat ∨ x.toNat = 0x7f))
    (hp : parseAuthority authority = .ok (user, host)) :
    Parse (scheme ++ ':' :: '/' :: '/' :: authority) =
      .ok { Scheme := scheme, User := user, Host := host } := by
  have hsch : ∀ x ∈ scheme, x ∈ schemeChars := by
    cases scheme with
    | nil => simp [validScheme] at hs
    | cons c rest =>
      simp only [validScheme, Bool.and_eq_true, List.all_eq_true] at hs
      intro x hx
      rw [List.mem_cons] at hx
      rcases hx with rfl | hx
      · exact (lowerLetters_facts x (by simpa using hs.1)).2.2
      · simpa using hs.2 x hx
  have hne : scheme ≠ [] := by
    intro h; rw [h] at hs; simp [validScheme] at hs
  have hraw : ∀ x ∈ scheme ++ ':' :: '/' :: '/' :: authority,
      x ≠ '#' ∧ ¬ (x.toNat < ' '.toNat ∨ x.toNat = 0x7f) := by
    intro x hx
    simp only [List.mem_append, List.mem_cons] at hx
    rcases hx with hx | rfl | rfl | rfl | hx
    · exact ⟨(schemeChars_facts x (hsch x hx)).2.2.1, (schemeChars_facts x (hsch x hx)).2.2.2.2⟩
    · decide
    · decide
    · decide
    · exact ⟨(ha x hx).2.2.1, (ha x hx).2.2.2⟩
  have hcut : cut (scheme ++ ':' :: '/' :: '/' :: authority) '#' =
      (scheme ++ ':' :: '/' :: '/' :: authority, [], false) :=
    cut_not_mem _ _ fun hx => (hraw _ hx).1 rfl
  have hctl : stringContainsCTLByte (scheme ++ ':' :: '/' :: '/' :: authority) = false := by
    unfold stringContainsCTLByte
    rw [List.any_eq_false]
    intro x hx
    have := (hraw x hx).2
    simpa using this
  have hstar : scheme ++ ':' :: '/' :: '/' :: authority ≠ ['*'] := by
    cases scheme with
    | nil => exact absurd rfl hne
    | cons c rest =>
      intro h
      cases rest <;> simp at h
  have hlow : toLower scheme = scheme := by
    unfold toLower
    conv_rhs => rw [← List.map_id scheme]
    exact List.map_congr_left fun x hx => (schemeChars_facts x (hsch x hx)).2.1
  have hq : '?' ∉ '/' :: '/' :: authority := by
    intro hx
    simp only [List.mem_cons] at hx
    rcases hx with hx | hx | hx
    · exact absurd hx (by decide)
    · exact absurd hx (by decide)
    · exact (ha _ hx).2.1 rfl
  have hslash : indexByte '/' authority = none :=
    indexByte_eq_none _ _ fun hx => (ha _ hx).1 rfl
  have hparse : parse (scheme ++ ':' :: '/' :: '/' :: authority) =
      .ok { Scheme := scheme, User := user, Host := host } := by
    unfold parse
    rw [hctl, getScheme_valid scheme _ hs]
    simp only [Bool.false_eq_true, if_false, hstar, bind, Except.bind, hlow,
      hasSuffixByte_not_mem '?' _ hq, false_and, cut_not_mem '?' _ hq]
    simp [hne, List.isPrefixOf, hslash, hp, URL.setPath, unescape_nil, bind, Except.bind, pure,
      Except.pure]
  unfold Parse
  rw [hcut]
  simp only [hparse]
  simp

theorem authority_facts (key host port : GoString) (hk : key = [] ∨ validKey key = true)
    (hh : validHost host = true) (hp : validPort port = true) :
    ∀ x ∈ key ++ '@' :: (host ++ port), x ≠ '/' ∧ x ≠ '?' ∧ x ≠ '#' ∧
      ¬ (x.toNat < ' '.toNat ∨ x.toNat = 0x7f) := by
  intro x hx
  simp only [List.mem_append, List.mem_cons] at hx
  rcases hx with hx | rfl | hx
  · rcases hk with rfl | hk
    · cases hx
    · simp only [validKey, Bool.and_eq_true, List.all_eq_true] at hk
      obtain ⟨-, -, h3, h4, h5, h6, -⟩ := keyChars_facts x (by simpa using hk.2 x hx)
      exact ⟨h3, h4, h5, h6⟩
  · decide
  · obtain ⟨-, h2, h3, h4, -, -, h7, -⟩ :=
      hostPort_facts host port hh hp x (List.mem_append.mpr hx)
    exact ⟨h2, h3, h4, h7⟩

/-- C1, as amended. For every connection string `scheme://key@host[:port]`
whose scheme is lower-case (a lower-case letter, then lower-case letters,
digits, `+`, `-`, `.`), whose key is non-empty and made of letters, digits and
`-._~!$&'()*+,;=@` (so without `%` and `:`), whose host is made of letters,
digits and `-._~!$&'()*+,;=`, and whose port, if any, is a colon and decimal
digits, `parseDSN` returns no error, the endpoint `scheme://host[:port]` and
the key, both exactly. -/
theorem parseDSN_valid (scheme key host port : GoString) (hs : validScheme scheme = true)
    (hk : validKey key = true) (hh : validHost host = true) (hp : validPort port = true) :
    parseDSN (connectionString scheme key host port) =
      ⟨endpointString scheme host port, key, none⟩ := by
  have hP := Parse_scheme_authority scheme (key ++ '@' :: (host ++ port)) (host ++ port)
    (some ⟨key, [], false⟩) hs (authority_facts key host port (Or.inr hk) hh hp)
    (parseAuthority_key key host port hk hh hp)
  have e : connectionString scheme key host port =
      scheme ++ ':' :: '/' :: '/' :: (key ++ '@' :: (host ++ port)) := by
    simp [connectionString]
  have hne : key ≠ [] := by
    intro h; rw [h] at hk; simp [validKey] at hk
  unfold parseDSN
  rw [e, hP]
  simp [Userinfo.Username, hne, endpointString]

/-- C1, witness of the amended statement: the first case of `TestParseDSN`. -/
theorem parseDSN_valid_witness :
    parseDSN "http://mykey@localhost:8000".toList =
      ⟨"http://localhost:8000".toList, "mykey".toList, none⟩ :=
  parseDSN_valid "http".toList "mykey".toList "localhost".toList ":8000".toList
    (by decide) (by decide) (by decide) (by decide)

/-- C1, counterexample: the connection string `HTTP://mykey@localhost:8000`
has the form `scheme://key@host:port` with a non-empty key, and the endpoint
`parseDSN` returns, `http://localhost:8000`, is not the input with `mykey@`
removed. -/
theorem parseDSN_upper_case_scheme :
    parseDSN (connectionString "HTTP".toList "mykey".toList "localhost".toList ":8000".toList) =
      ⟨"http://localhost:8000".toList, "mykey".toList, none⟩ ∧
    "http://localhost:8000".toList ≠
      endpointString "HTTP".toList "localhost".toList ":8000".toList := by
  decide

/-- A percent-encoded key is returned decoded, not as written. -/
theorem parseDSN_percent_encoded_key :
    parseDSN (connectionString "http".toList "my%2Fkey".toList "localhost".toList []) =
      ⟨"http://localhost".toList, "my/key".toList, none⟩ := by
  decide

theorem indexByte_append (c : Char) (a b : GoString) (h : c ∉ a) :
    indexByte c (a ++ c :: b) = some a.length := by
  induction a with
  | nil => simp [indexByte]
  | cons x xs ih =>
    simp only [List.mem_cons, not_or] at h
    simp [indexByte, Ne.symm h.1, ih h.2]

/-- A string without `%` passes the first loop of `unescape` in a path. -/
theorem unescapeCheck_plain_path (s : GoString) (h : ∀ x ∈ s, x ≠ '%') :
    unescapeCheck .encodePath s = none := by
  induction s with
  | nil => rfl
  | cons x xs ih =>
    have hx := h x (List.mem_cons_self _ _)
    have ih' := ih fun y hy => h y (List.mem_cons_of_mem _ hy)
    unfold unescapeCheck
    simp only [hx, if_false, ih']
    simp

/-- The URL `Parse` returns for `scheme://authority/path`. -/
theorem Parse_scheme_authority_path (scheme authority host path : GoString)
    (user : Option Userinfo) (hs : validScheme scheme = true)
    (ha : ∀ x ∈ authority, x ≠ '/' ∧ x ≠ '?' ∧ x ≠ '#' ∧
      ¬ (x.toNat < ' '.toNat ∨ x.toNat = 0x7f))
    (hpath : ∀ x ∈ path, x ≠ '%' ∧ x ≠ '?' ∧ x ≠ '#' ∧
      ¬ (x.toNat < ' '.toNat ∨ x.toNat = 0x7f))
    (hp : parseAuthority authority = .ok (user, host)) :
    Parse (scheme ++ ':' :: '/' :: '/' :: (authority ++ '/' :: path)) =
      .ok { Scheme := scheme, User := user, Host := host, Path := '/' :: path } := by
  have hsch : ∀ x ∈ scheme, x ∈ schemeChars := by
    cases scheme with
    | nil => simp [validScheme] at hs
    | cons c rest =>
      simp only [validScheme, Bool.and_eq_true, List.all_eq_true] at hs
      intro x hx
      rw [List.mem_cons] at hx
      rcases hx with rfl | hx
      · exact (lowerLetters_facts x (by simpa using hs.1)).2.2
      · simpa using hs.2 x hx
  have hne : scheme ≠ [] := by
    intro h; rw [h] at hs; simp [validScheme] at hs
  have htail : ∀ x ∈ authority ++ '/' :: path, x ≠ '?' ∧ x ≠ '#' ∧
      ¬ (x.toNat < ' '.toNat ∨ x.toNat = 0x7f) := by
    intro x hx
    simp only [List.mem_append, List.mem_cons] at hx
    rcases hx with hx | rfl | hx
    · exact ⟨(ha x hx).2.1, (ha x hx).2.2.1, (ha x hx).2.2.2⟩
    · decide
    · exact ⟨(hpath x hx).2.1, (hpath x hx).2.2.1, (hpath x hx).2.2.2⟩
  have hraw : ∀ x ∈ scheme ++ ':' :: '/' :: '/' :: (authority ++ '/' :: path),
      x ≠ '#' ∧ ¬ (x.toNat < ' '.toNat ∨ x.toNat = 0x7f) := by
    intro x hx
    simp only [List.mem_append, List.mem_cons] at hx
    rcases hx with hx | rfl | rfl | rfl | hx
    · exact ⟨(schemeChars_facts x (hsch x hx)).2.2.1, (schemeChars_facts x (hsch x hx)).2.2.2.2⟩
    · decide
    · decide
    · decide
    · exact ⟨(htail x (by simpa using hx)).2.1, (htail x (by simpa using hx)).2.2⟩
  have hcut : cut (scheme ++ ':' :: '/' :: '/' :: (authority ++ '/' :: path)) '#' =
      (scheme ++ ':' :: '/' :: '/' :: (authority ++ '/' :: path), [], false) :=
    cut_not_mem _ _ fun hx => (hraw _ hx).1 rfl
  have hctl : stringContainsCTLByte
      (scheme ++ ':' :: '/' :: '/' :: (authority ++ '/' :: path)) = false := by
    unfold stringContainsCTLByte
    rw [List.any_eq_false]
    intro x hx
    have := (hraw x hx).2
    simpa using this
  have hstar : scheme ++ ':' :: '/' :: '/' :: (authority ++ '/' :: path) ≠ ['*'] := by
    cases scheme with
    | nil => exact absurd rfl hne
    | cons c rest =>
      intro h
      cases rest <;> simp at h
  have hlow : toLower scheme = scheme := by
    unfold toLower
    conv_rhs => rw [← List.map_id scheme]
    exact List.map_congr_left fun x hx => (schemeChars_facts x (hsch x hx)).2.1
  have hq : '?' ∉ '/' :: '/' :: (authority ++ '/' :: path) := by
    intro hx
    simp only [List.mem_cons] at hx
    rcases hx with hx | hx | hx
    · exact absurd hx (by decide)
    · exact absurd hx (by decide)
    · exact (htail _ hx).1 rfl
  have hslash : indexByte '/' (authority ++ '/' :: path) = some authority.length :=
    indexByte_append _ _ _ fun hx => (ha _ hx).1 rfl
  have hun : unescape ('/' :: path) .encodePath = .ok ('/' :: path) := by
    have hpct : ∀ x ∈ '/' :: path, x ≠ '%' := by
      intro x hx
      rw [List.mem_cons] at hx
      rcases hx with rfl | hx
      · decide
      · exact (hpath x hx).1
    exact unescape_of_check _ _ (by decide) hpct (unescapeCheck_plain_path _ hpct)
  have hparse : parse (scheme ++ ':' :: '/' :: '/' :: (authority ++ '/' :: path)) =
      .ok { Scheme := scheme, User := user, Host := host, Path := '/' :: path } := by
    unfold parse
    rw [hctl, getScheme_valid scheme _ hs]
    simp only [Bool.false_eq_true, if_false, hstar, bind, Except.bind, hlow,
      hasSuffixByte_not_mem '?' _ hq, false_and, cut_not_mem '?' _ hq]
    simp [hne, List.isPrefixOf, hslash, hp, URL.setPath, hun, bind, Except.bind, pure,
      Except.pure]
  unfold Parse
  rw [hcut]
  simp only [hparse]
  simp

/-- For an endpoint `scheme://host[:port]` with valid parts `send` can always
build its request. -/
theorem request_of_valid_endpoint (c : client) (scheme host port body : GoString)
    (hs : validScheme scheme = true) (hh : validHost host = true) (hp : validPort port = true)
    (he : c.endpoint = endpointString scheme host port) :
    ∃ req : Request, c.request body = some req ∧ req.Body = body ∧
      req.Method = "POST".toList := by
  have hfacts : ∀ x ∈ host ++ port, x ≠ '/' ∧ x ≠ '?' ∧ x ≠ '#' ∧
      ¬ (x.toNat < ' '.toNat ∨ x.toNat = 0x7f) := by
    intro x hx
    obtain ⟨-, h2, h3, h4, -, -, h7, -⟩ := hostPort_facts host port hh hp x hx
    exact ⟨h2, h3, h4, h7⟩
  have hP := Parse_scheme_authority_path scheme (host ++ port) (host ++ port)
    "api/events".toList none hs hfacts (by decide) (parseAuthority_no_key host port hh hp)
  have e : c.endpoint ++ "/api/events".toList =
      scheme ++ ':' :: '/' :: '/' :: (host ++ port ++ '/' :: "api/events".toList) := by
    rw [he]
    simp [endpointString]
  unfold client.request NewRequest
  rw [e, hP]
  exact ⟨_, rfl, rfl, rfl⟩

/-- A connection string without a scheme passes `parseDSN`, and with the
endpoint it yields `send` returns before the transport call and writes nothing. -/
theorem send_without_scheme :
    parseDSN "//key@host".toList = ⟨"://host".toList, "key".toList, none⟩ ∧
    ∀ (tr : Transport) (c : client) (event : Event) (p : Process),
      c.endpoint = "://host".toList → send tr c event p = p := by
  refine ⟨by decide, ?_⟩
  intro tr c event p he
  have hP : Parse ("://host".toList ++ "/api/events".toList) = .error .missingProtocolScheme :=
    rfl
  unfold send NewRequest
  rw [he, hP]
  cases tr.jsonMarshal event <;> rfl

/-- For an endpoint `scheme://host[:port]` with valid parts, `send` passes the
transport a request for every event the encoder accepts. -/
theorem post_of_valid_endpoint (tr : Transport) (c : client) (scheme host port : GoString)
    (hs : validScheme scheme = true) (hh : validHost host = true) (hp : validPort port = true)
    (he : c.endpoint = endpointString scheme host port) (e : Event) (body : GoString)
    (hm : tr.jsonMarshal e = some body) : (c.post tr e).isSome = true := by
  obtain ⟨req, hreq, -, -⟩ := request_of_valid_endpoint c scheme host port body hs hh hp he
  unfold client.post
  rw [hm, Option.some_bind, hreq]
  rfl

end Obs
